import Mathlib

/-!
Verification of the mcpshield risk-evaluation pipeline.

This file gives a shallow embedding, in Lean 4, of the core logic of the
mcpshield scanner: the Levenshtein / typosquat similarity engine
(src/typosquat.js, src/data/vulndb.js), the credential / permission /
transport pattern matchers (src/credentials.js), package identity
extraction and the CVE lookup (src/cvecheck.js), the finding aggregation
and severity histogram, the verdict / exit-code policy (src/index.js), and
the JSON report pass flag (src/output.js).  JavaScript strings are
modelled as Lean strings (lists of characters); JavaScript numbers that
only ever hold small integers are modelled as Nat; the two floating-point
comparisons in the source (the similarity threshold test and the sort
comparator) are modelled over the rationals, which is exact for every
value the program can produce (see the comments at the definitions).

Theorems C1..C10 at the end of the file settle the frozen claims.
-/

/-! ## Reference edit distance (spec side)

The spec describes the distance as "full dynamic-programming edit-distance
over unit-cost insert/delete/substitute".  `editDist` is that function,
written as the standard structural recursion; the imperative DP table of
the source is embedded separately below (`levenshtein`) and proved equal.
-/

/-- Unrestricted unit-cost edit distance (insert / delete / substitute),
as a structural recursion.  This is the mathematical specification that
the source's dynamic-programming table is checked against. -/
def editDist : List Char → List Char → Nat
  | [], b => b.length
  | a, [] => a.length
  | x :: a, y :: b =>
      if x = y then editDist a b
      else 1 + min (editDist a (y :: b)) (min (editDist (x :: a) b) (editDist a b))
termination_by a b => a.length + b.length
decreasing_by all_goals simp [List.length_cons]; try omega

@[simp] theorem editDist_nil_left (b : List Char) : editDist [] b = b.length := by
  cases b <;> simp [editDist]

@[simp] theorem editDist_nil_right (a : List Char) : editDist a [] = a.length := by
  cases a <;> simp [editDist]

theorem editDist_cons_cons (x y : Char) (a b : List Char) :
    editDist (x :: a) (y :: b) =
      if x = y then editDist a b
      else 1 + min (editDist a (y :: b)) (min (editDist (x :: a) b) (editDist a b)) := by
  rw [editDist]

@[simp] theorem editDist_self (a : List Char) : editDist a a = 0 := by
  induction a with
  | nil => simp
  | cons x a ih => rw [editDist_cons_cons]; simp [ih]

theorem editDist_eq_zero_iff (a b : List Char) : editDist a b = 0 ↔ a = b := by
  induction a generalizing b with
  | nil => cases b <;> simp
  | cons x a ih =>
    cases b with
    | nil => simp
    | cons y b =>
      rw [editDist_cons_cons]
      by_cases h : x = y
      · subst h; simp [ih]
      · simp [h]

/-- Adding or removing a leading character on either side changes the edit
distance by at most one (all four bounds, proved simultaneously by strong
induction on the combined length). -/
theorem editDist_pm_aux : ∀ (n : Nat) (a b : List Char), a.length + b.length ≤ n →
    (∀ x, editDist (x :: a) b ≤ 1 + editDist a b) ∧
    (∀ y, editDist a (y :: b) ≤ 1 + editDist a b) ∧
    (∀ x, editDist a b ≤ 1 + editDist (x :: a) b) ∧
    (∀ y, editDist a b ≤ 1 + editDist a (y :: b)) := by
  intro n
  induction n with
  | zero =>
    intro a b h
    have ha : a = [] := by cases a <;> simp_all
    have hb : b = [] := by cases b <;> simp_all
    subst ha; subst hb
    refine ⟨fun x => ?_, fun y => ?_, fun x => ?_, fun y => ?_⟩ <;> simp
  | succ n ih =>
    intro a b h
    refine ⟨fun x => ?_, fun y => ?_, fun x => ?_, fun y => ?_⟩
    · cases b with
      | nil => simp; omega
      | cons y b' =>
        have h' : a.length + b'.length ≤ n := by
          simp only [List.length_cons] at h; omega
        rw [editDist_cons_cons]
        by_cases hxy : x = y
        · subst hxy
          simpa using (ih a b' h').2.2.2 x
        · simp only [if_neg hxy]
          omega
    · cases a with
      | nil => simp; omega
      | cons x a' =>
        have h' : a'.length + b.length ≤ n := by
          simp only [List.length_cons] at h; omega
        rw [editDist_cons_cons]
        by_cases hxy : x = y
        · subst hxy
          simpa using (ih a' b h').2.2.1 x
        · simp only [if_neg hxy]
          omega
    · cases b with
      | nil => simp; omega
      | cons y b' =>
        have h' : a.length + b'.length ≤ n := by
          simp only [List.length_cons] at h; omega
        rw [editDist_cons_cons]
        by_cases hxy : x = y
        · subst hxy
          simpa using (ih a b' h').2.1 x
        · simp only [if_neg hxy]
          have h1 := (ih a b' h').2.1 y
          have h2 := (ih a b' h').2.2.1 x
          omega
    · cases a with
      | nil => simp; omega
      | cons x a' =>
        have h' : a'.length + b.length ≤ n := by
          simp only [List.length_cons] at h; omega
        rw [editDist_cons_cons]
        by_cases hxy : x = y
        · subst hxy
          simpa using (ih a' b h').1 x
        · simp only [if_neg hxy]
          have h1 := (ih a' b h').1 x
          have h2 := (ih a' b h').2.2.2 y
          omega

theorem editDist_cons_left_le (x : Char) (a b : List Char) :
    editDist (x :: a) b ≤ 1 + editDist a b :=
  (editDist_pm_aux (a.length + b.length) a b le_rfl).1 x

theorem editDist_cons_right_le (y : Char) (a b : List Char) :
    editDist a (y :: b) ≤ 1 + editDist a b :=
  (editDist_pm_aux (a.length + b.length) a b le_rfl).2.1 y

theorem editDist_le_cons_left (x : Char) (a b : List Char) :
    editDist a b ≤ 1 + editDist (x :: a) b :=
  (editDist_pm_aux (a.length + b.length) a b le_rfl).2.2.1 x

theorem editDist_le_cons_right (y : Char) (a b : List Char) :
    editDist a b ≤ 1 + editDist a (y :: b) :=
  (editDist_pm_aux (a.length + b.length) a b le_rfl).2.2.2 y

/-- Symmetry of the edit distance. -/
theorem editDist_comm_aux : ∀ (n : Nat) (a b : List Char), a.length + b.length ≤ n →
    editDist a b = editDist b a := by
  intro n
  induction n with
  | zero =>
    intro a b h
    have ha : a = [] := by cases a <;> simp_all
    have hb : b = [] := by cases b <;> simp_all
    subst ha; subst hb; rfl
  | succ n ih =>
    intro a b h
    cases a with
    | nil => simp
    | cons x a' =>
      cases b with
      | nil => simp
      | cons y b' =>
        have hab : a'.length + b'.length ≤ n := by
          simp only [List.length_cons] at h; omega
        rw [editDist_cons_cons, editDist_cons_cons]
        have e1 := ih a' (y :: b') (by simp only [List.length_cons] at h ⊢; omega)
        have e2 := ih (x :: a') b' (by simp only [List.length_cons] at h ⊢; omega)
        have e3 := ih a' b' hab
        by_cases hxy : x = y
        · subst hxy; simp [e3]
        · have hyx : ¬ y = x := fun hc => hxy hc.symm
          simp only [if_neg hxy, if_neg hyx]
          omega

theorem editDist_comm (a b : List Char) : editDist a b = editDist b a :=
  editDist_comm_aux (a.length + b.length) a b le_rfl

/-- The edit distance is at least the difference of the lengths. -/
theorem length_le_editDist_aux : ∀ (n : Nat) (a b : List Char), a.length + b.length ≤ n →
    b.length ≤ a.length + editDist a b := by
  intro n
  induction n with
  | zero =>
    intro a b h
    have hb : b = [] := by cases b <;> simp_all
    subst hb; simp
  | succ n ih =>
    intro a b h
    cases a with
    | nil => simp
    | cons x a' =>
      cases b with
      | nil => simp
      | cons y b' =>
        rw [editDist_cons_cons]
        by_cases hxy : x = y
        · subst hxy
          have := ih a' b' (by simp only [List.length_cons] at h ⊢; omega)
          rw [if_pos rfl]
          simp only [List.length_cons]
          omega
        · simp only [if_neg hxy, List.length_cons]
          have h1 := ih a' (y :: b') (by simp only [List.length_cons] at h ⊢; omega)
          have h2 := ih (x :: a') b' (by simp only [List.length_cons] at h ⊢; omega)
          have h3 := ih a' b' (by simp only [List.length_cons] at h ⊢; omega)
          simp only [List.length_cons] at h1 h2
          omega

theorem length_sub_le_editDist (a b : List Char) :
    b.length ≤ a.length + editDist a b :=
  length_le_editDist_aux (a.length + b.length) a b le_rfl

theorem length_sub_le_editDist' (a b : List Char) :
    a.length ≤ b.length + editDist a b := by
  have := length_sub_le_editDist b a
  rwa [editDist_comm b a] at this

/-- The edit distance is at most the sum of the lengths. -/
theorem editDist_le_length_add (a : List Char) : ∀ b, editDist a b ≤ a.length + b.length := by
  induction a with
  | nil => intro b; simp
  | cons x a' ih =>
    intro b
    cases b with
    | nil => simp
    | cons y b' =>
      rw [editDist_cons_cons]
      by_cases hxy : x = y
      · have := ih b'
        simp only [if_pos hxy, List.length_cons]
        omega
      · have := ih b'
        simp only [if_neg hxy, List.length_cons]
        omega

/-- Triangle inequality for the edit distance, by strong induction on the
combined length with case analysis on the three head characters. -/
theorem editDist_triangle_aux : ∀ (n : Nat) (a b c : List Char),
    a.length + b.length + c.length ≤ n →
    editDist a c ≤ editDist a b + editDist b c := by
  intro n
  induction n with
  | zero =>
    intro a b c h
    have ha : a = [] := by cases a <;> simp_all
    have hc : c = [] := by cases c <;> simp_all
    subst ha; subst hc; simp
  | succ n ih =>
    intro a b c h
    cases b with
    | nil =>
      have h1 := editDist_le_length_add a c
      simp only [editDist_nil_left, editDist_nil_right]
      omega
    | cons y b' =>
      cases a with
      | nil =>
        have h1 := length_sub_le_editDist (y :: b') c
        simp only [editDist_nil_left]
        simp only [List.length_cons] at h1 ⊢
        omega
      | cons x a' =>
        cases c with
        | nil =>
          have h1 := length_sub_le_editDist' (x :: a') (y :: b')
          simp only [editDist_nil_right]
          simp only [List.length_cons] at h1 ⊢
          omega
        | cons z c' =>
          simp only [List.length_cons] at h
          have i1 := ih a' (y :: b') (z :: c')
            (by simp only [List.length_cons]; omega)
          have i2 := ih (x :: a') b' (z :: c')
            (by simp only [List.length_cons]; omega)
          have i3 := ih (x :: a') (y :: b') c'
            (by simp only [List.length_cons]; omega)
          have i4 := ih a' b' (z :: c')
            (by simp only [List.length_cons]; omega)
          have i5 := ih a' (y :: b') c'
            (by simp only [List.length_cons]; omega)
          have i6 := ih (x :: a') b' c'
            (by simp only [List.length_cons]; omega)
          have i7 := ih a' b' c' (by omega)
          have cb3 := editDist_le_cons_right z a' c'
          have cb4 := editDist_le_cons_left x a' c'
          have cb5 := editDist_cons_left_le x a' c'
          have cb6 := editDist_cons_right_le z a' c'
          have eab := editDist_cons_cons x y a' b'
          have ebc := editDist_cons_cons y z b' c'
          have eac := editDist_cons_cons x z a' c'
          by_cases hxy : x = y
          · subst hxy
            by_cases hxz : x = z
            · subst hxz
              rw [if_pos rfl] at eab ebc eac
              omega
            · rw [if_pos rfl] at eab
              rw [if_neg hxz] at ebc eac
              omega
          · by_cases hyz : y = z
            · subst hyz
              rw [if_neg hxy] at eab eac
              rw [if_pos rfl] at ebc
              omega
            · by_cases hxz : x = z
              · subst hxz
                rw [if_neg hxy] at eab
                rw [if_neg (fun hc => hxy hc.symm)] at ebc
                rw [if_pos rfl] at eac
                omega
              · rw [if_neg hxy] at eab
                rw [if_neg hyz] at ebc
                rw [if_neg hxz] at eac
                omega

theorem editDist_triangle (a b c : List Char) :
    editDist a c ≤ editDist a b + editDist b c :=
  editDist_triangle_aux (a.length + b.length + c.length) a b c le_rfl

/-- Regrouping a nine-way minimum by columns instead of rows. -/
theorem min9_regroup (a b c d e f g h i : Nat) :
    min (min a (min b c)) (min (min d (min e f)) (min g (min h i)))
      = min (min a (min d g)) (min (min b (min e h)) (min c (min f i))) := by
  apply le_antisymm
  · have ha : min (min a (min b c)) (min (min d (min e f)) (min g (min h i))) ≤ a :=
      le_trans (min_le_left _ _) (min_le_left _ _)
    have hb : min (min a (min b c)) (min (min d (min e f)) (min g (min h i))) ≤ b :=
      le_trans (min_le_left _ _) (le_trans (min_le_right _ _) (min_le_left _ _))
    have hc : min (min a (min b c)) (min (min d (min e f)) (min g (min h i))) ≤ c :=
      le_trans (min_le_left _ _) (le_trans (min_le_right _ _) (min_le_right _ _))
    have hd : min (min a (min b c)) (min (min d (min e f)) (min g (min h i))) ≤ d :=
      le_trans (min_le_right _ _) (le_trans (min_le_left _ _) (min_le_left _ _))
    have he : min (min a (min b c)) (min (min d (min e f)) (min g (min h i))) ≤ e :=
      le_trans (min_le_right _ _)
        (le_trans (min_le_left _ _) (le_trans (min_le_right _ _) (min_le_left _ _)))
    have hf : min (min a (min b c)) (min (min d (min e f)) (min g (min h i))) ≤ f :=
      le_trans (min_le_right _ _)
        (le_trans (min_le_left _ _) (le_trans (min_le_right _ _) (min_le_right _ _)))
    have hg : min (min a (min b c)) (min (min d (min e f)) (min g (min h i))) ≤ g :=
      le_trans (min_le_right _ _) (le_trans (min_le_right _ _) (min_le_left _ _))
    have hh : min (min a (min b c)) (min (min d (min e f)) (min g (min h i))) ≤ h :=
      le_trans (min_le_right _ _)
        (le_trans (min_le_right _ _) (le_trans (min_le_right _ _) (min_le_left _ _)))
    have hi : min (min a (min b c)) (min (min d (min e f)) (min g (min h i))) ≤ i :=
      le_trans (min_le_right _ _)
        (le_trans (min_le_right _ _) (le_trans (min_le_right _ _) (min_le_right _ _)))
    exact le_min (le_min ha (le_min hd hg))
      (le_min (le_min hb (le_min he hh)) (le_min hc (le_min hf hi)))
  · have ha : min (min a (min d g)) (min (min b (min e h)) (min c (min f i))) ≤ a :=
      le_trans (min_le_left _ _) (min_le_left _ _)
    have hd : min (min a (min d g)) (min (min b (min e h)) (min c (min f i))) ≤ d :=
      le_trans (min_le_left _ _) (le_trans (min_le_right _ _) (min_le_left _ _))
    have hg : min (min a (min d g)) (min (min b (min e h)) (min c (min f i))) ≤ g :=
      le_trans (min_le_left _ _) (le_trans (min_le_right _ _) (min_le_right _ _))
    have hb : min (min a (min d g)) (min (min b (min e h)) (min c (min f i))) ≤ b :=
      le_trans (min_le_right _ _) (le_trans (min_le_left _ _) (min_le_left _ _))
    have he : min (min a (min d g)) (min (min b (min e h)) (min c (min f i))) ≤ e :=
      le_trans (min_le_right _ _)
        (le_trans (min_le_left _ _) (le_trans (min_le_right _ _) (min_le_left _ _)))
    have hh : min (min a (min d g)) (min (min b (min e h)) (min c (min f i))) ≤ h :=
      le_trans (min_le_right _ _)
        (le_trans (min_le_left _ _) (le_trans (min_le_right _ _) (min_le_right _ _)))
    have hc : min (min a (min d g)) (min (min b (min e h)) (min c (min f i))) ≤ c :=
      le_trans (min_le_right _ _) (le_trans (min_le_right _ _) (min_le_left _ _))
    have hf : min (min a (min d g)) (min (min b (min e h)) (min c (min f i))) ≤ f :=
      le_trans (min_le_right _ _)
        (le_trans (min_le_right _ _) (le_trans (min_le_right _ _) (min_le_left _ _)))
    have hi : min (min a (min d g)) (min (min b (min e h)) (min c (min f i))) ≤ i :=
      le_trans (min_le_right _ _)
        (le_trans (min_le_right _ _) (le_trans (min_le_right _ _) (min_le_right _ _)))
    exact le_min (le_min ha (le_min hb hc))
      (le_min (le_min hd (le_min he hf)) (le_min hg (le_min hh hi)))

set_option maxHeartbeats 1600000 in
/-- The edit distance also satisfies the recurrence on the last characters;
this is the recurrence the source's DP table steps with. -/
theorem editDist_snoc_aux : ∀ (n : Nat) (u v : List Char) (x y : Char),
    u.length + v.length ≤ n →
    editDist (u ++ [x]) (v ++ [y]) =
      if x = y then editDist u v
      else 1 + min (editDist u (v ++ [y])) (min (editDist (u ++ [x]) v) (editDist u v)) := by
  intro n
  induction n with
  | zero =>
    intro u v x y h
    have hu : u = [] := by cases u <;> simp_all
    have hv : v = [] := by cases v <;> simp_all
    subst hu; subst hv
    simp only [List.nil_append]
    rw [editDist_cons_cons]
  | succ n ih =>
    intro u v x y h
    cases u with
    | nil =>
      cases v with
      | nil =>
        simp only [List.nil_append]
        rw [editDist_cons_cons]
      | cons w v' =>
        have ih1 := ih [] v' x y
          (by simp only [List.length_cons, List.length_nil] at h ⊢; omega)
        simp only [List.nil_append] at ih1 ⊢
        have e1 := editDist_cons_cons x w (([] : List Char)) (v' ++ [y])
        have e2 := editDist_cons_cons x w (([] : List Char)) v'
        simp only [List.nil_append] at e1 e2
        have l1 : editDist [] (v' ++ [y]) = v'.length + 1 := by
          simp [List.length_append]
        have l2 : editDist [] (w :: (v' ++ [y])) = v'.length + 2 := by
          simp [List.length_append]
        have l3 : editDist [] v' = v'.length := by simp
        have l4 : editDist [] (w :: v') = v'.length + 1 := by simp
        simp only [List.cons_append]
        rw [e1]
        by_cases hxw : x = w
        · subst hxw
          rw [if_pos rfl] at e2
          by_cases hxy : x = y
          · subst hxy
            rw [if_pos rfl] at ih1 ⊢
            rw [if_pos rfl]
            omega
          · rw [if_neg hxy] at ih1 ⊢
            rw [if_pos rfl]
            omega
        · rw [if_neg hxw] at e2
          rw [if_neg hxw]
          by_cases hxy : x = y
          · subst hxy
            rw [if_pos rfl] at ih1 ⊢
            omega
          · rw [if_neg hxy] at ih1 ⊢
            omega
    | cons z u' =>
      cases v with
      | nil =>
        have ih1 := ih u' [] x y
          (by simp only [List.length_cons, List.length_nil] at h ⊢; omega)
        simp only [List.nil_append] at ih1 ⊢
        have e1 := editDist_cons_cons z y (u' ++ [x]) (([] : List Char))
        have e2 := editDist_cons_cons z y u' (([] : List Char))
        have l1 : editDist (u' ++ [x]) [] = u'.length + 1 := by
          simp [List.length_append]
        have l2 : editDist (z :: (u' ++ [x])) [] = u'.length + 2 := by
          simp [List.length_append]
        have l3 : editDist u' [] = u'.length := by simp
        have l4 : editDist (z :: u') [] = u'.length + 1 := by simp
        simp only [List.cons_append]
        rw [show ([y] : List Char) = y :: [] from rfl] at e1 e2 ⊢
        rw [e1]
        by_cases hzy : z = y
        · subst hzy
          rw [if_pos rfl] at e2
          by_cases hxy : x = z
          · subst hxy
            rw [if_pos rfl] at ih1 ⊢
            rw [if_pos rfl]
            omega
          · rw [if_neg hxy] at ih1 ⊢
            rw [if_pos rfl]
            omega
        · rw [if_neg hzy] at e2
          rw [if_neg hzy]
          by_cases hxy : x = y
          · subst hxy
            rw [if_pos rfl] at ih1 ⊢
            omega
          · rw [if_neg hxy] at ih1 ⊢
            omega
      | cons w v' =>
        simp only [List.length_cons] at h
        have Ia := ih u' v' x y (by omega)
        have Ib := ih u' (w :: v') x y (by simp only [List.length_cons]; omega)
        have Ic := ih (z :: u') v' x y (by simp only [List.length_cons]; omega)
        simp only [List.cons_append] at Ib Ic ⊢
        have eL := editDist_cons_cons z w (u' ++ [x]) (v' ++ [y])
        have eR1 := editDist_cons_cons z w u' (v' ++ [y])
        have eR2 := editDist_cons_cons z w (u' ++ [x]) v'
        have eR3 := editDist_cons_cons z w u' v'
        rw [eL]
        by_cases hzw : z = w
        · subst hzw
          rw [if_pos rfl] at eR1 eR2 eR3
          rw [if_pos rfl]
          by_cases hxy : x = y
          · subst hxy
            rw [if_pos rfl] at Ia
            rw [if_pos rfl]
            rw [Ia, eR3]
          · rw [if_neg hxy] at Ia
            rw [if_neg hxy]
            rw [Ia, eR1, eR2, eR3]
        · rw [if_neg hzw] at eR1 eR2 eR3
          rw [if_neg hzw]
          by_cases hxy : x = y
          · subst hxy
            rw [if_pos rfl] at Ia Ib Ic
            rw [if_pos rfl]
            rw [Ia, Ib, Ic, eR3]
          · rw [if_neg hxy] at Ia Ib Ic
            rw [if_neg hxy]
            rw [Ia, Ib, Ic, eR1, eR2, eR3]
            have e1 : min (1 + min (editDist u' (w :: (v' ++ [y])))
                  (min (editDist (u' ++ [x]) (w :: v')) (editDist u' (w :: v'))))
                (min (1 + min (editDist (z :: u') (v' ++ [y]))
                  (min (editDist (z :: (u' ++ [x])) v') (editDist (z :: u') v')))
                 (1 + min (editDist u' (v' ++ [y]))
                  (min (editDist (u' ++ [x]) v') (editDist u' v')))) =
                1 + min (min (editDist u' (w :: (v' ++ [y])))
                  (min (editDist (u' ++ [x]) (w :: v')) (editDist u' (w :: v'))))
                (min (min (editDist (z :: u') (v' ++ [y]))
                  (min (editDist (z :: (u' ++ [x])) v') (editDist (z :: u') v')))
                 (min (editDist u' (v' ++ [y]))
                  (min (editDist (u' ++ [x]) v') (editDist u' v')))) := by
              rw [min_add_add_left, min_add_add_left]
            have e2 : min (1 + min (editDist u' (w :: (v' ++ [y])))
                  (min (editDist (z :: u') (v' ++ [y])) (editDist u' (v' ++ [y]))))
                (min (1 + min (editDist (u' ++ [x]) (w :: v'))
                  (min (editDist (z :: (u' ++ [x])) v') (editDist (u' ++ [x]) v')))
                 (1 + min (editDist u' (w :: v'))
                  (min (editDist (z :: u') v') (editDist u' v')))) =
                1 + min (min (editDist u' (w :: (v' ++ [y])))
                  (min (editDist (z :: u') (v' ++ [y])) (editDist u' (v' ++ [y]))))
                (min (min (editDist (u' ++ [x]) (w :: v'))
                  (min (editDist (z :: (u' ++ [x])) v') (editDist (u' ++ [x]) v')))
                 (min (editDist u' (w :: v'))
                  (min (editDist (z :: u') v') (editDist u' v')))) := by
              rw [min_add_add_left, min_add_add_left]
            rw [e1, e2, min9_regroup]

namespace MCPShield

/-- JS String.startsWith (character-list based; String.startsWith itself
does not reduce in the kernel). -/
def strStartsWith (s pre : String) : Bool := pre.toList.isPrefixOf s.toList

/-- JS String.includes with a single-character argument. -/
def strContainsChar (s : String) (c : Char) : Bool := s.toList.contains c

/-! ## The source's levenshtein function (DP table, row by row)

src/typosquat.js `levenshtein(a, b)` builds the full (m+1) x (n+1) DP table
with `dp[i][0] = i`, `dp[0][j] = j` and
`dp[i][j] = a[i-1]==b[j-1] ? dp[i-1][j-1] : 1 + min(dp[i-1][j], dp[i][j-1], dp[i-1][j-1])`,
returning `dp[m][n]`.  We embed it row by row: `levRowAux` computes the
entries `dp[i][1..n]` of row `i` from row `i-1` (walking along `b` while
holding the previous-row window and the last computed entry), and `levRows`
folds over `a`. -/

def levRowAux (x : Char) : List Char → List Nat → Nat → List Nat
  | y :: bs, pd :: pu :: ps, left =>
      (if x = y then pd else 1 + min pu (min left pd)) ::
        levRowAux x bs (pu :: ps) (if x = y then pd else 1 + min pu (min left pd))
  | _, _, _ => []

def levRows (bs : List Char) : List Char → List Nat → Nat → List Nat
  | [], row, _ => row
  | x :: as, row, i => levRows bs as ((i + 1) :: levRowAux x bs row (i + 1)) (i + 1)

/-- Embedding of `levenshtein` from src/typosquat.js on character lists. -/
def levenshteinL (a b : List Char) : Nat :=
  (levRows b a (List.range (b.length + 1)) 0).getLastD 0

/-- Embedding of `levenshtein` from src/typosquat.js on strings. -/
def levenshtein (a b : String) : Nat :=
  levenshteinL a.toList b.toList

/-- The row of distances `editDist u (v ++ bs.take k)` for `k = 0 .. bs.length`. -/
def rowFor (u : List Char) : List Char → List Char → List Nat
  | v, [] => [editDist u v]
  | v, y :: bs => editDist u v :: rowFor u (v ++ [y]) bs

theorem rowFor_head (u v : List Char) (bs : List Char) :
    rowFor u v bs = editDist u v :: (rowFor u v bs).tail := by
  cases bs <;> simp [rowFor]

theorem levRowAux_spec (x : Char) (u : List Char) : ∀ (bs v : List Char),
    levRowAux x bs (rowFor u v bs) (editDist (u ++ [x]) v)
      = (rowFor (u ++ [x]) v bs).tail := by
  intro bs
  induction bs with
  | nil => intro v; simp [rowFor, levRowAux]
  | cons y bs' ih =>
    intro v
    rw [show rowFor u v (y :: bs') = editDist u v :: rowFor u (v ++ [y]) bs' from rfl]
    rw [rowFor_head u (v ++ [y]) bs']
    rw [show rowFor (u ++ [x]) v (y :: bs')
          = editDist (u ++ [x]) v :: rowFor (u ++ [x]) (v ++ [y]) bs' from rfl]
    rw [levRowAux]
    have hsnoc := editDist_snoc_aux (u.length + v.length) u v x y le_rfl
    have hc : (if x = y then editDist u v
        else 1 + min (editDist u (v ++ [y]))
          (min (editDist (u ++ [x]) v) (editDist u v)))
        = editDist (u ++ [x]) (v ++ [y]) := hsnoc.symm
    rw [hc]
    rw [show editDist u (v ++ [y]) :: (rowFor u (v ++ [y]) bs').tail
          = rowFor u (v ++ [y]) bs' from (rowFor_head u (v ++ [y]) bs').symm]
    rw [ih (v ++ [y])]
    rw [List.tail_cons]
    exact (rowFor_head (u ++ [x]) (v ++ [y]) bs').symm

theorem levRows_spec (bs : List Char) : ∀ (as u : List Char),
    levRows bs as (rowFor u [] bs) u.length = rowFor (u ++ as) [] bs := by
  intro as
  induction as with
  | nil => intro u; simp [levRows]
  | cons x as' ih =>
    intro u
    rw [levRows]
    have hrow : (u.length + 1) :: levRowAux x bs (rowFor u [] bs) (u.length + 1)
        = rowFor (u ++ [x]) [] bs := by
      have hlen : editDist (u ++ [x]) ([] : List Char) = u.length + 1 := by
        simp [List.length_append]
      have := levRowAux_spec x u bs []
      rw [hlen] at this
      rw [this]
      rw [← hlen]
      exact (rowFor_head (u ++ [x]) [] bs).symm
    rw [hrow]
    have := ih (u ++ [x])
    rw [List.length_append] at this
    simpa [List.append_assoc] using this

theorem rowFor_nil_left : ∀ (bs v : List Char),
    rowFor [] v bs = (List.range (bs.length + 1)).map (fun k => v.length + k) := by
  intro bs
  induction bs with
  | nil => intro v; simp [rowFor, List.range_succ]
  | cons y bs' ih =>
    intro v
    rw [rowFor, ih (v ++ [y])]
    rw [List.length_cons]
    conv_rhs => rw [List.range_succ_eq_map, List.map_cons, List.map_map]
    congr 1
    · simp
    · apply List.map_congr_left
      intro k _
      simp only [Function.comp_apply, List.length_append, List.length_cons, List.length_nil]
      omega

theorem rowFor_getLastD : ∀ (bs v u : List Char),
    (rowFor u v bs).getLastD 0 = editDist u (v ++ bs) := by
  intro bs
  induction bs with
  | nil => intro v u; simp [rowFor]
  | cons y bs' ih =>
    intro v u
    rw [rowFor, List.getLastD_cons]
    have hswap : (rowFor u (v ++ [y]) bs').getLastD (editDist u v)
        = (rowFor u (v ++ [y]) bs').getLastD 0 := by
      rw [List.getLastD_eq_getLast?, List.getLastD_eq_getLast?]
      cases hlast : (rowFor u (v ++ [y]) bs').getLast? with
      | none =>
        rw [rowFor_head u (v ++ [y]) bs'] at hlast
        simp at hlast
      | some a => simp
    rw [hswap, ih (v ++ [y]) u]
    simp [List.append_assoc]

/-- The source's DP levenshtein equals the reference edit distance. -/
theorem levenshteinL_eq_editDist (a b : List Char) : levenshteinL a b = editDist a b := by
  unfold levenshteinL
  have hinit : List.range (b.length + 1) = rowFor [] [] b := by
    rw [rowFor_nil_left b []]
    simp
  rw [hinit]
  have := levRows_spec b a []
  simp only [List.length_nil, List.nil_append] at this
  rw [this]
  have := rowFor_getLastD b [] a
  simpa using this

/-- String-level version. -/
theorem levenshtein_eq_editDist (a b : String) :
    levenshtein a b = editDist a.toList b.toList :=
  levenshteinL_eq_editDist a.toList b.toList

/-! ## Static data tables (src/data/vulndb.js) -/

/-- Known legitimate MCP server package names (KNOWN_LEGITIMATE_PACKAGES). -/
def KNOWN_LEGITIMATE_PACKAGES : List String := [
  "@anthropic/mcp-server-git",
  "@anthropic/mcp-server-github",
  "@anthropic/mcp-server-slack",
  "@anthropic/mcp-server-memory",
  "@anthropic/mcp-server-puppeteer",
  "@anthropic/mcp-server-brave-search",
  "@anthropic/mcp-server-fetch",
  "@anthropic/mcp-server-everart",
  "@anthropic/mcp-server-sequentialthinking",
  "@modelcontextprotocol/server-filesystem",
  "@modelcontextprotocol/server-postgres",
  "@modelcontextprotocol/server-github",
  "@modelcontextprotocol/server-gitlab",
  "@modelcontextprotocol/server-slack",
  "@modelcontextprotocol/server-google-maps",
  "@modelcontextprotocol/server-memory",
  "@modelcontextprotocol/server-puppeteer",
  "@modelcontextprotocol/server-brave-search",
  "@modelcontextprotocol/server-fetch",
  "@modelcontextprotocol/server-sqlite",
  "@modelcontextprotocol/server-everything",
  "@microsoft/markitdown-mcp",
  "mcp-server-github",
  "mcp-server-stripe",
  "mcp-server-linear",
  "mcp-server-notion",
  "mcp-server-obsidian",
  "mcp-server-postgres",
  "mcp-server-sqlite",
  "mcp-server-docker",
  "mcp-server-kubernetes",
  "mcp-server-aws",
  "mcp-server-gcp",
  "mcp-server-azure",
  "mcp-server-browser",
  "mcp-server-playwright",
  "mcp-server-firecrawl",
  "mcp-server-raygun",
  "mcp-server-sentry",
  "mcp-server-datadog",
  "mcp-server-supabase",
  "mcp-server-prisma",
  "mcp-server-redis",
  "mcp-server-mongodb"]

/-- An entry of the known-malicious table (KNOWN_MALICIOUS). -/
structure MalEntry where
  name : String
  impersonates : String
  reason : String
  severity : String
deriving DecidableEq

/-- Known malicious packages (KNOWN_MALICIOUS). -/
def KNOWN_MALICIOUS : List MalEntry := [
  ⟨"mcp-servr-github", "mcp-server-github",
    "Typosquat — contains credential-harvesting payload", "critical"⟩,
  ⟨"mcp-server-githuh", "mcp-server-github",
    "Typosquat — exfiltrates environment variables on install", "critical"⟩,
  ⟨"mcp-server-giithub", "mcp-server-github",
    "Typosquat — obfuscated reverse shell in postinstall", "critical"⟩,
  ⟨"@anthropic/mcp-server-glt", "@anthropic/mcp-server-git",
    "Typosquat — reads .git/config and SSH keys", "critical"⟩,
  ⟨"mcp-server-postgress", "mcp-server-postgres",
    "Typosquat — intercepts database credentials", "critical"⟩,
  ⟨"mcp-server-posgres", "mcp-server-postgres",
    "Typosquat — backdoored fork with data exfiltration", "critical"⟩,
  ⟨"mcp-server-firecrawll", "mcp-server-firecrawl",
    "Typosquat — exfiltrates crawled content to C2 server", "critical"⟩,
  ⟨"mcp-server-notlon", "mcp-server-notion",
    "Typosquat — steals Notion integration tokens", "critical"⟩,
  ⟨"mcp-server-slqite", "mcp-server-sqlite",
    "Typosquat — copies database files to external endpoint", "critical"⟩,
  ⟨"mcp-server-browsre", "mcp-server-browser",
    "Typosquat — injects credential-stealing scripts into browsed pages", "critical"⟩,
  ⟨"@anthroplc/mcp-server-git", "@anthropic/mcp-server-git",
    "Scope typosquat — impersonates @anthropic scope (l vs i)", "critical"⟩,
  ⟨"@anthropic-ai/mcp-server-git", "@anthropic/mcp-server-git",
    "Scope typosquat — fake @anthropic-ai scope", "critical"⟩,
  ⟨"@modelcontextprotoco1/server-filesystem", "@modelcontextprotocol/server-filesystem",
    "Scope typosquat — l replaced with 1", "critical"⟩]

/-! ## Typosquat detection (src/typosquat.js) -/

/-- Case-sensitive substring test, the embedding of JS String.includes. -/
def isSubstrL (pat : List Char) : List Char → Bool
  | [] => pat.isEmpty
  | c :: t => pat.isPrefixOf (c :: t) || isSubstrL pat t

def strIncludes (s pat : String) : Bool := isSubstrL pat.toList s.toList

/-- Replace the first occurrence of `pat` (embedding of JS String.replace
with a string pattern, which replaces only the first occurrence). -/
def replaceFirstL (pat rep : List Char) : List Char → List Char
  | [] => []
  | c :: rest =>
      if pat.isPrefixOf (c :: rest) then rep ++ (c :: rest).drop pat.length
      else c :: replaceFirstL pat rep rest

def strReplaceFirst (s pat rep : String) : String :=
  ⟨replaceFirstL pat.toList rep.toList s.toList⟩

/-- CONFUSABLE_PAIRS from src/typosquat.js. -/
def CONFUSABLE_PAIRS : List (String × String) :=
  [("l", "1"), ("l", "i"), ("0", "o"), ("rn", "m"),
   ("vv", "w"), ("cl", "d"), ("nn", "m"), ("ii", "u")]

/-- hasConfusableSubstitution from src/typosquat.js. -/
def hasConfusableSubstitution (name legitimate : String) : Bool :=
  CONFUSABLE_PAIRS.any (fun p =>
    (strIncludes name p.1 && (strReplaceFirst name p.1 p.2 == legitimate)) ||
    (strIncludes name p.2 && (strReplaceFirst name p.2 p.1 == legitimate)))

/-- Positional character differences between two equal-length strings
(the loop in isTransposition). -/
def countDiffs : List Char → List Char → Nat
  | x :: a, y :: b => (if x = y then 0 else 1) + countDiffs a b
  | _, _ => 0

/-- isTransposition from src/typosquat.js: any length difference of at most
one passes; at equal length at most two positional differences pass. -/
def isTransposition (a b : String) : Bool :=
  if ((a.length : Int) - (b.length : Int)).natAbs > 1 then false
  else if a.length = b.length then decide (countDiffs a.toList b.toList ≤ 2)
  else true

/-- A typosquat candidate as built by detectTyposquat.  The source object
has optional fields; absent fields are `none` (`reason` is only set on the
confirmed-malicious path, `similarity` and `method` only on the fuzzy
path).  The source stores `similarity` as a formatted percentage string;
we keep the exact value `1 - dist/maxLen` as a numerator/denominator pair
`(maxLen - dist, maxLen)`, which no downstream logic inspects. -/
structure Cand where
  isTyposquat : Bool
  confidence : String
  target : String
  reason : Option String
  severity : String
  distance : Nat
  similarity : Option (Nat × Nat)
  method : Option String
deriving DecidableEq

/-- The similarity threshold of the source, `1 - dist/maxLen > 0.75`
computed in doubles, is modelled by the exact integer test
`4 * dist < maxLen`: the two are equivalent over the rationals
(see `similarityOK_iff`), and for every value the program can produce
(dist ≤ 3, maxLen ≤ a few dozen) double rounding cannot move `dist/maxLen`
across 1/4, so the integer test is exact for the source as well. -/
def similarityOK (dist maxLen : Nat) : Bool := 4 * dist < maxLen

theorem similarityOK_iff (dist maxLen : Nat) (h : 0 < maxLen) :
    similarityOK dist maxLen = true ↔
      (0.75 : ℚ) < 1 - (dist : ℚ) / (maxLen : ℚ) := by
  unfold similarityOK
  rw [decide_eq_true_iff]
  have hm : (0 : ℚ) < (maxLen : ℚ) := by exact_mod_cast h
  rw [show (0.75 : ℚ) = 3 / 4 by norm_num]
  constructor
  · intro hlt
    have hq : (dist : ℚ) / (maxLen : ℚ) < 1 / 4 := by
      rw [div_lt_div_iff₀ hm (by norm_num : (0 : ℚ) < 4)]
      have h4 : (dist : ℚ) * 4 < 1 * (maxLen : ℚ) := by
        exact_mod_cast (by omega : dist * 4 < 1 * maxLen)
      exact h4
    linarith
  · intro hlt
    have hq : (dist : ℚ) / (maxLen : ℚ) < 1 / 4 := by linarith
    rw [div_lt_div_iff₀ hm (by norm_num : (0 : ℚ) < 4)] at hq
    have h4 : dist * 4 < 1 * maxLen := by exact_mod_cast hq
    omega

/-- The candidate loop of detectTyposquat: for each legitimate package, the
distance/similarity admissibility test and the classification. -/
def candidatesFor (packageName : String) : List Cand :=
  KNOWN_LEGITIMATE_PACKAGES.filterMap (fun legitimate =>
    let dist := levenshtein packageName legitimate
    let maxLen := max packageName.length legitimate.length
    if 0 < dist ∧ dist ≤ 3 ∧ similarityOK dist maxLen then
      some ⟨true,
            if dist = 1 then "high" else if dist = 2 then "medium" else "low",
            legitimate,
            none,
            if dist = 1 then "critical" else "high",
            dist,
            some (maxLen - dist, maxLen),
            some (if hasConfusableSubstitution packageName legitimate then
                    "confusable substitution"
                  else if isTransposition packageName legitimate then
                    "character transposition"
                  else if dist = 1 then "single character difference"
                  else "edit distance")⟩
    else none)

/-- Insertion of a candidate behind all strictly closer earlier candidates.
ECMAScript's Array.prototype.sort is required to be stable, and the stable
sort of a list by a total preorder is unique, so this insertion sort is
the faithful embedding of `candidates.sort((a, b) => a.distance - b.distance)`:
on distance ties the earlier (lower table index) candidate stays first. -/
def insertCand (c : Cand) : List Cand → List Cand
  | [] => [c]
  | d :: ds => if d.distance < c.distance then d :: insertCand c ds else c :: d :: ds

def sortCands : List Cand → List Cand
  | [] => []
  | c :: cs => insertCand c (sortCands cs)

/-- detectTyposquat from src/typosquat.js. -/
def detectTyposquat (packageName : String) : Option Cand :=
  match KNOWN_MALICIOUS.find? (fun m => m.name == packageName) with
  | some m =>
      some ⟨true, "confirmed", m.impersonates, some m.reason, m.severity,
            levenshtein packageName m.impersonates, none, none⟩
  | none =>
      if KNOWN_LEGITIMATE_PACKAGES.contains packageName then none
      else (sortCands (candidatesFor packageName)).head?

/-! ## Publisher check (src/typosquat.js checkPublisher) -/

structure PubResult where
  trusted : Bool
  scope : Option String
  reason : String
deriving DecidableEq

def trustedScopes : List String :=
  ["@anthropic/", "@modelcontextprotocol/", "@microsoft/", "@google/",
   "@stripe/", "@cloudflare/", "@vercel/", "@supabase/"]

/-- checkPublisher from src/typosquat.js. -/
def checkPublisher (packageName : String) : PubResult :=
  match trustedScopes.find? (fun s => strStartsWith packageName s) with
  | some s => ⟨true, some s, "Published under trusted scope " ++ s⟩
  | none =>
      if KNOWN_LEGITIMATE_PACKAGES.contains packageName then
        ⟨true, some "community-verified", "Listed in verified community packages"⟩
      else
        ⟨false, none, "Unknown publisher — not from a trusted scope or verified list"⟩

/-! ## Server configs and package identity extraction (src/cvecheck.js) -/

/-- A server configuration.  Absent fields of the JS object are modelled by
the defaults the source substitutes (`serverConfig.args || []`,
`serverConfig.command || ''`, `serverConfig.env || {}`); the env object is
an ordered association list. -/
structure ServerCfg where
  command : String
  args : List String
  env : List (String × String)
  transport : Option String
deriving DecidableEq

/-- extractPackageName from src/cvecheck.js.  For npx/uvx the loop skips
flag arguments and returns the first argument that starts with `@` or has
no `/`; an argument failing that shape test is also skipped.  If the loop
returns nothing the function falls through to the remaining cases. -/
def extractPackageName (cfg : ServerCfg) : Option String :=
  let fromArgs : Option String :=
    if cfg.command == "npx" || cfg.command == "uvx" then
      cfg.args.find? (fun a =>
        !strStartsWith a "-" && (strStartsWith a "@" || !strContainsChar a '/'))
    else none
  match fromArgs with
  | some a => some a
  | none =>
      if cfg.command == "node" || cfg.command == "python" || cfg.command == "python3" then
        none
      else if strStartsWith cfg.command "mcp-" || strStartsWith cfg.command "@" then
        some cfg.command
      else none

/-! ## CVE database and lookup (src/data/vulndb.js, src/cvecheck.js) -/

structure Vuln where
  id : String
  severity : String
  cvss : ℚ
  title : String
  description : String
  affected : String
  fixed : Option String
  references : List String
deriving DecidableEq

structure VulnEntry where
  package : String
  verified : Bool
  vulnerabilities : List Vuln
deriving DecidableEq

/-- KNOWN_VULNS from src/data/vulndb.js (ordered key/value pairs). -/
def KNOWN_VULNS : List (String × VulnEntry) := [
  ("@anthropic/mcp-server-git",
   ⟨"@anthropic/mcp-server-git", true, [
     ⟨"CVE-2025-68145", "critical", 9.1, "Path validation bypass via prompt injection",
      "Allows path traversal through crafted prompts, enabling access to files outside the repository directory.",
      "<0.6.3", some "0.6.3", ["https://nvd.nist.gov/vuln/detail/CVE-2025-68145"]⟩,
     ⟨"CVE-2025-68143", "high", 7.8, "Unrestricted git_init enables arbitrary repo creation",
      "Attacker can initialize git repositories in arbitrary filesystem locations.",
      "<0.6.3", some "0.6.3", ["https://nvd.nist.gov/vuln/detail/CVE-2025-68143"]⟩,
     ⟨"CVE-2025-68144", "high", 7.5, "Argument injection in git commands",
      "User-controlled input passed unsanitized to git CLI arguments allows arbitrary command execution.",
      "<0.6.3", some "0.6.3", ["https://nvd.nist.gov/vuln/detail/CVE-2025-68144"]⟩]⟩),
  ("@modelcontextprotocol/server-filesystem",
   ⟨"@modelcontextprotocol/server-filesystem", true, [
     ⟨"MCP-2026-0012", "high", 7.2, "Symlink traversal bypasses allowed_directories",
      "Symbolic links can escape the sandboxed directory tree, allowing read access to sensitive system files.",
      "<0.6.3", some "0.6.3", []⟩]⟩),
  ("@modelcontextprotocol/server-postgres",
   ⟨"@modelcontextprotocol/server-postgres", true, [
     ⟨"MCP-2026-0019", "critical", 9.8, "SQL injection via tool parameter passthrough",
      "User-supplied values are interpolated directly into SQL queries without parameterization.",
      "<0.5.0", none, []⟩]⟩),
  ("mcp-server-postgres",
   ⟨"mcp-server-postgres", false, [
     ⟨"MCP-2026-0019", "critical", 9.8, "SQL injection via tool parameter passthrough",
      "User-supplied values interpolated directly into SQL queries without parameterization.",
      "*", none, []⟩,
     ⟨"MCP-2026-0020", "critical", 9.2, "Connection string exposed in tool metadata",
      "Database credentials stored in plaintext within the MCP tool description visible to the LLM.",
      "*", none, []⟩,
     ⟨"MCP-2026-0021", "high", 8.1, "No query allow-listing or scope restriction",
      "Agents can execute arbitrary DDL/DML including DROP TABLE and data exfiltration queries.",
      "*", none, []⟩]⟩),
  ("@microsoft/markitdown-mcp",
   ⟨"@microsoft/markitdown-mcp", true, [
     ⟨"MCP-2026-0008", "medium", 6.1, "SSRF via crafted document URLs",
      "Processing documents with embedded URLs can trigger server-side requests to internal network resources.",
      "<1.2.1", some "1.2.1", []⟩]⟩),
  ("mcp-server-browser",
   ⟨"mcp-server-browser", false, [
     ⟨"MCP-2026-0030", "critical", 9.5, "Arbitrary JavaScript execution via page navigation",
      "Agent can navigate to javascript: URLs, executing code in the browser context.",
      "*", none, []⟩,
     ⟨"MCP-2026-0031", "high", 7.9, "Cookie exfiltration through response metadata",
      "Session cookies from visited pages leak through tool response metadata.",
      "*", none, []⟩]⟩)]

structure CVEResult where
  found : Bool
  package : String
  vulnerabilities : List Vuln
deriving DecidableEq

/-- checkCVEs from src/cvecheck.js (on an extracted, non-null identity). -/
def checkCVEs (packageName : String) : CVEResult :=
  match KNOWN_VULNS.find? (fun p => p.1 == packageName) with
  | none => ⟨false, "", []⟩
  | some p => ⟨true, p.2.package, p.2.vulnerabilities⟩

/-! ## Findings -/

/-- A finding.  Fields the source only sets on some paths are Options. -/
structure Finding where
  server : String
  package : Option String
  type : String
  severity : String
  title : String
  detail : String
  advice : String
  value : Option String
  description : Option String
  cvss : Option ℚ
  fixed : Option String
deriving DecidableEq

/-- formatCVEFindings from src/cvecheck.js; `server`/`package` are filled
in by scanConfig's spread. -/
def formatCVEFindings (cveResult : CVEResult) (serverName : String) : List Finding :=
  if !cveResult.found || cveResult.vulnerabilities.isEmpty then []
  else cveResult.vulnerabilities.map (fun v =>
    ⟨"", none, "known_vulnerability", v.severity,
     v.id ++ ": " ++ v.title,
     "Affects " ++ serverName ++ " (" ++ cveResult.package ++ ")",
     match v.fixed with
     | some f => "Upgrade to version " ++ f ++ " or later."
     | none => "No patch available. Consider using an alternative server or implementing additional controls.",
     none,
     some v.description,
     some v.cvss,
     some (match v.fixed with
           | some f => "Fixed in " ++ f
           | none => "No fix available")⟩)

/-! ## Pattern matchers (the regexes of src/data/vulndb.js)

Each regex of the source is transliterated into a small matcher over
character lists.  All the source regexes carry the `i` flag, so literals
are matched case-insensitively.  Every quantified class in these regexes
excludes the character that must follow it (for example `[^:]+` before
`:`), so greedy matching without backtracking is exact for them. -/

def litCIAux : List Char → List Char → Option (List Char)
  | [], s => some s
  | _ :: _, [] => none
  | c :: cs, d :: ds => if c.toLower == d.toLower then litCIAux cs ds else none

abbrev Matcher := List Char → Option (List Char)

def mlitCI (pat : String) : Matcher := fun s => litCIAux pat.toList s

def mseq (m1 m2 : Matcher) : Matcher := fun s => (m1 s).bind m2

def mseqs (ms : List Matcher) : Matcher := ms.foldr mseq (fun s => some s)

def malt (m1 m2 : Matcher) : Matcher := fun s =>
  match m1 s with
  | some r => some r
  | none => m2 s

def mopt (m : Matcher) : Matcher := fun s =>
  match m s with
  | some r => some r
  | none => some s

def mone (p : Char → Bool) : Matcher := fun s =>
  match s with
  | c :: t => if p c then some t else none
  | [] => none

/-- Greedy `class{k,}`. -/
def mmin (p : Char → Bool) (k : Nat) : Matcher := fun s =>
  let run := s.takeWhile p
  if k ≤ run.length then some (s.drop run.length) else none

/-- `class{k}` (exactly k). -/
def mexact (p : Char → Bool) (k : Nat) : Matcher := fun s =>
  if (s.take k).length == k && (s.take k).all p then some (s.drop k) else none

/-- Matches the pattern at some position of the list (regex `test`). -/
def testAux (m : Matcher) : List Char → Bool
  | [] => (m []).isSome
  | c :: t => (m (c :: t)).isSome || testAux m t

def patTest (m : Matcher) (v : String) : Bool := testAux m v.toList

/-- Case-insensitive substring test (a fixed-string `/i` regex). -/
def strIncludesCI (s pat : String) : Bool := patTest (mlitCI pat) s

def isAlnumAscii (c : Char) : Bool := c.isAlpha || c.isDigit

def isWordChar (c : Char) : Bool := c.isAlpha || c.isDigit || c == '_'

def braceO : Char := Char.ofNat 123

def braceC : Char := Char.ofNat 125

/-- The class `[^\s,}{]`. -/
def notSpaceCommaBrace (c : Char) : Bool :=
  !(c.isWhitespace || c == ',' || c == braceO || c == braceC)

/-- `\b` after a word character: succeeds when the rest does not start
with a word character. -/
def mWordBoundary : Matcher := fun s =>
  match s with
  | [] => some []
  | c :: _ => if isWordChar c then none else some s

/-- `user:pass@` tail of the database-URL credential patterns:
`[^:]+:[^@]+@`. -/
def mUserPassAt : Matcher :=
  mseqs [mmin (fun c => !(c == ':')) 1, mone (fun c => c == ':'),
         mmin (fun c => !(c == '@')) 1, mone (fun c => c == '@')]

/-! ## Credential patterns (CREDENTIAL_PATTERNS) -/

structure CredRule where
  test : String → Bool
  type : String
  severity : String
  advice : String

def CREDENTIAL_PATTERNS : List CredRule := [
  ⟨patTest (mseqs [mlitCI "postgres", mopt (mlitCI "ql"), mlitCI "://", mUserPassAt]),
   "Database credentials", "critical",
   "Use environment variable references ($ENV_VAR) instead of inline credentials."⟩,
  ⟨patTest (mseqs [mlitCI "mysql://", mUserPassAt]),
   "Database credentials", "critical",
   "Use environment variable references instead of inline credentials."⟩,
  ⟨patTest (mseqs [mlitCI "mongodb", mopt (mlitCI "+srv"), mlitCI "://", mUserPassAt]),
   "Database credentials", "critical",
   "Use environment variable references instead of inline credentials."⟩,
  ⟨patTest (mseqs [mlitCI "redis://:", mmin (fun c => !(c == '@')) 1,
                   mone (fun c => c == '@')]),
   "Redis credentials", "high",
   "Use environment variable references instead of inline credentials."⟩,
  ⟨patTest (mseqs [mlitCI "sk-", mmin isAlnumAscii 20]),
   "OpenAI API key", "critical",
   "API keys should never be in config files. Use environment variables."⟩,
  ⟨patTest (mseqs [mlitCI "sk-ant-", mmin (fun c => isAlnumAscii c || c == '-') 20]),
   "Anthropic API key", "critical",
   "API keys should never be in config files. Use environment variables."⟩,
  ⟨patTest (mseqs [mlitCI "xoxb-", mmin Char.isDigit 1, mone (fun c => c == '-'),
                   mmin isAlnumAscii 1]),
   "Slack Bot token", "critical",
   "Use environment variable references instead of inline tokens."⟩,
  ⟨patTest (mseqs [mlitCI "xoxp-", mmin Char.isDigit 1, mone (fun c => c == '-'),
                   mmin isAlnumAscii 1]),
   "Slack User token", "critical",
   "Use environment variable references instead of inline tokens."⟩,
  ⟨patTest (mseqs [mlitCI "ghp_", mexact isAlnumAscii 36]),
   "GitHub PAT", "critical",
   "Use environment variable references instead of inline tokens."⟩,
  ⟨patTest (mseqs [mlitCI "gho_", mexact isAlnumAscii 36]),
   "GitHub OAuth token", "critical",
   "Use environment variable references instead of inline tokens."⟩,
  ⟨patTest (mseqs [mlitCI "glpat-", mexact (fun c => isAlnumAscii c || c == '_' || c == '-') 20]),
   "GitLab PAT", "critical",
   "Use environment variable references instead of inline tokens."⟩,
  ⟨patTest (mseqs [mlitCI "AKIA", mexact isAlnumAscii 16]),
   "AWS Access Key", "critical",
   "Use IAM roles or environment variables instead of inline keys."⟩,
  ⟨patTest (mseqs [mlitCI "password", mmin Char.isWhitespace 0,
                   mone (fun c => c == ':' || c == '='), mmin Char.isWhitespace 0,
                   mmin notSpaceCommaBrace 1]),
   "Plaintext password", "high",
   "Never store passwords in configuration files."⟩,
  ⟨patTest (mseqs [mlitCI "secret", mmin Char.isWhitespace 0,
                   mone (fun c => c == ':' || c == '='), mmin Char.isWhitespace 0,
                   mmin notSpaceCommaBrace 1]),
   "Plaintext secret", "high",
   "Never store secrets in configuration files."⟩,
  ⟨patTest (mseqs [mlitCI "token", mmin Char.isWhitespace 0,
                   mone (fun c => c == ':' || c == '='), mmin Char.isWhitespace 0,
                   mmin notSpaceCommaBrace 1]),
   "Plaintext token", "medium",
   "Consider using environment variable references for tokens."⟩,
  ⟨patTest (mseqs [mlitCI "-----BEGIN ",
                   mopt (malt (mlitCI "RSA ") (malt (mlitCI "EC ") (mlitCI "OPENSSH "))),
                   mlitCI "PRIVATE KEY-----"]),
   "Private key", "critical",
   "Private keys must never be embedded in configuration files."⟩]

/-! ## Dangerous permission patterns (DANGEROUS_PERMISSIONS) -/

structure PermRule where
  test : String → Bool
  type : String
  severity : String
  advice : String

def PermRuleCI (pat type severity advice : String) : PermRule :=
  ⟨fun s => strIncludesCI s pat, type, severity, advice⟩

def DANGEROUS_PERMISSIONS : List PermRule := [
  PermRuleCI "--allow-all" "Unrestricted permissions" "high"
    "Use granular --allow-read and --allow-write flags instead.",
  ⟨patTest (mseqs [mone (fun c => c == '/' || c == '\\'),
                   malt (mlitCI "etc") (malt (mlitCI "root") (malt (mlitCI "sys") (mlitCI "proc"))),
                   mWordBoundary]),
   "System directory access", "high",
   "Restrict file access to application-specific directories."⟩,
  PermRuleCI "~/.ssh" "SSH directory access" "critical"
    "MCP servers should never access SSH keys.",
  PermRuleCI "~/.aws" "AWS credentials directory access" "critical"
    "MCP servers should never access AWS credential files.",
  PermRuleCI "~/.gnupg" "GPG keyring access" "critical"
    "MCP servers should never access GPG keyrings.",
  PermRuleCI "~/.kube" "Kubernetes config access" "high"
    "MCP servers should not access kubeconfig by default.",
  PermRuleCI "~/.docker" "Docker config access" "high"
    "MCP servers should not access Docker credentials.",
  PermRuleCI "~/.npmrc" "npm config access" "high"
    "npm config may contain auth tokens. Do not expose to MCP servers.",
  PermRuleCI "~/.env" "Dotenv file access" "high"
    "Environment files contain secrets. Do not expose to MCP servers.",
  PermRuleCI "~/.git-credentials" "Git credentials file access" "critical"
    "Git credential store should never be accessible to MCP servers.",
  PermRuleCI "~/.netrc" "Netrc file access" "critical"
    "Netrc contains machine credentials. Do not expose to MCP servers.",
  PermRuleCI "0.0.0.0" "Binds to all interfaces" "medium"
    "Bind to 127.0.0.1 (localhost) unless remote access is explicitly required.",
  PermRuleCI "--no-sandbox" "Sandbox disabled" "high"
    "Never disable sandboxing in production MCP servers.",
  PermRuleCI "--disable-web-security" "Web security disabled" "critical"
    "Disabling web security exposes the browser to cross-origin attacks.",
  PermRuleCI "--remote-debugging" "Remote debugging enabled" "high"
    "Remote debugging ports can be exploited for RCE.",
  ⟨patTest (mseqs [mlitCI "sudo", mone Char.isWhitespace]),
   "Elevated privileges (sudo)", "critical",
   "MCP servers should never run with sudo/root privileges."⟩,
  PermRuleCI "--privileged" "Privileged mode" "critical"
    "Do not run MCP servers in Docker privileged mode.",
  ⟨patTest (mseqs [mlitCI "chmod", mmin Char.isWhitespace 1, mlitCI "777"]),
   "World-writable permissions", "high",
   "Never set 777 permissions in MCP server operations."⟩]

/-! ## Credential scanning (src/credentials.js) -/

/-- The two character classes of the mask regex
`/([^:\/]{3})[^:\/\s@]{4,}/g`. -/
def isMaskSep1 (c : Char) : Bool := c == ':' || c == '/'

def isMaskSep2 (c : Char) : Bool := c == ':' || c == '/' || c.isWhitespace || c == '@'

/-- Global replace with `'$1****'` for the mask regex: at each position,
three characters outside `[:\/]` followed by a maximal run of at least
four characters outside `[:\/\s@]` are replaced by the three characters
plus `****`; scanning resumes after the match (JS global replace,
leftmost, non-overlapping, the `{4,}` greedy with nothing after it). -/
def maskAuxF : Nat → List Char → List Char
  | 0, s => s
  | fuel + 1, c1 :: c2 :: c3 :: rest =>
      if !isMaskSep1 c1 && !isMaskSep1 c2 && !isMaskSep1 c3 then
        let run := rest.takeWhile (fun c => !isMaskSep2 c)
        if 4 ≤ run.length then
          c1 :: c2 :: c3 :: '*' :: '*' :: '*' :: '*'
            :: maskAuxF fuel (rest.drop run.length)
        else c1 :: maskAuxF fuel (c2 :: c3 :: rest)
      else c1 :: maskAuxF fuel (c2 :: c3 :: rest)
  | _ + 1, s => s

/-- The scan consumes at least one character per step, so the input length
is enough fuel; the fuel only makes the recursion structural (and hence
kernel-computable). -/
def maskAux (s : List Char) : List Char := maskAuxF s.length s

/-- The credential mask of scanValue. -/
def maskValue (v : String) : String := ⟨maskAux v.toList⟩

/-- scanValue from src/credentials.js: one finding per matching credential
pattern, with the masked value. -/
def scanValue (value path : String) : List Finding :=
  CREDENTIAL_PATTERNS.filterMap (fun rule =>
    if rule.test value then
      some ⟨"", none, "hardcoded_credential", rule.severity,
            rule.type ++ " detected in config",
            "Found at: " ++ path,
            rule.advice,
            some (maskValue value), none, none, none⟩
    else none)

/-- scanPermissions from src/credentials.js. -/
def scanPermissions (args : List String) (env : List (String × String))
    (serverName : String) : List Finding :=
  let allValues :=
    args.enum.map (fun p => (p.2, serverName ++ ".args[" ++ toString p.1 ++ "]"))
      ++ env.map (fun p => (p.2, serverName ++ ".env." ++ p.1))
  allValues.flatMap (fun pv =>
    DANGEROUS_PERMISSIONS.filterMap (fun rule =>
      if rule.test pv.1 then
        some ⟨"", none, "dangerous_permission", rule.severity,
              rule.type, "Found at: " ++ pv.2, rule.advice,
              some pv.1, none, none, none⟩
      else none))

def envLookup (env : List (String × String)) (k : String) : Option String :=
  (env.find? (fun p => p.1 == k)).map (fun p => p.2)

/-- JS truthiness of an env entry (absent or empty string is falsy). -/
def truthy (o : Option String) : Bool :=
  match o with
  | some v => !(v == "")
  | none => false

/-- The http pattern `/http:\/\/(?!localhost|127\.0\.0\.1|0\.0\.0\.0)/i`. -/
def httpInsecureAux : List Char → Bool
  | [] => false
  | c :: t =>
      (match litCIAux "http://".toList (c :: t) with
       | some rest =>
           !((litCIAux "localhost".toList rest).isSome
             || (litCIAux "127.0.0.1".toList rest).isSome
             || (litCIAux "0.0.0.0".toList rest).isSome)
       | none => false)
      || httpInsecureAux t

def httpInsecure (s : String) : Bool := httpInsecureAux s.toList

/-- scanTransport from src/credentials.js. -/
def scanTransport (cfg : ServerCfg) (serverName : String) : List Finding :=
  let args := String.intercalate " " cfg.args
  let env := cfg.env
  (if httpInsecure args || env.any (fun p => httpInsecure p.2) then
    [⟨"", none, "insecure_transport", "high", "Non-HTTPS URL detected",
      "Server " ++ serverName ++ " connects over unencrypted HTTP",
      "Use HTTPS for all remote MCP server connections to prevent credential interception.",
      none, none, none, none⟩]
  else [])
  ++
  (if strIncludes args "sse" || cfg.transport == some "sse" then
    if !strIncludes args "auth" && !truthy (envLookup env "AUTH_TOKEN")
        && !truthy (envLookup env "API_KEY") && !truthy (envLookup env "BEARER_TOKEN") then
      [⟨"", none, "missing_auth", "medium", "SSE transport without visible authentication",
        "Server " ++ serverName ++ " uses SSE transport but no auth token is configured",
        "Ensure SSE connections use OAuth or bearer token authentication.",
        none, none, none, none⟩]
    else []
  else [])

/-- The sensitive-key pattern `/key|token|secret|password|credential|auth|bearer/i`. -/
def sensitiveKeyTest (k : String) : Bool :=
  ["key", "token", "secret", "password", "credential", "auth", "bearer"].any
    (fun w => strIncludesCI k w)

/-- The string `"${"` used by the env-reference check. -/
def dollarBrace : String := String.mk ['$', braceO]

/-- scanEnvValues from src/credentials.js. -/
def scanEnvValues (env : List (String × String)) (serverName : String) : List Finding :=
  env.flatMap (fun kv =>
    (if sensitiveKeyTest kv.1 then
      if !strStartsWith kv.2 "$" && !strStartsWith kv.2 dollarBrace && 5 < kv.2.length then
        [⟨"", none, "inline_secret", "high",
          "Secret value inlined for " ++ kv.1,
          serverName ++ ".env." ++ kv.1 ++ " contains a direct value instead of an env reference",
          "Use an environment variable reference: \"" ++ kv.1 ++ "\": \"$" ++ kv.1
            ++ "\" and set it in your shell environment.",
          some ((kv.2.take 4) ++ "****"), none, none, none⟩]
      else []
    else [])
    ++ scanValue kv.2 (serverName ++ ".env." ++ kv.1))

/-- The deduplication key `${f.title}:${f.detail}`. -/
def dedupKey (f : Finding) : String := f.title ++ ":" ++ f.detail

/-- The seen-set filter at the end of scanCredentials. -/
def dedupAux (seen : List String) : List Finding → List Finding
  | [] => []
  | f :: fs =>
      if seen.contains (dedupKey f) then dedupAux seen fs
      else f :: dedupAux (dedupKey f :: seen) fs

/-- The concatenation of all credential-scanner findings for one server,
before deduplication (args in index order, then env, then permissions,
then transport). -/
def preDedupFindings (cfg : ServerCfg) (serverName : String) : List Finding :=
  cfg.args.enum.flatMap
    (fun p => scanValue p.2 (serverName ++ ".args[" ++ toString p.1 ++ "]"))
  ++ scanEnvValues cfg.env serverName
  ++ scanPermissions cfg.args cfg.env serverName
  ++ scanTransport cfg serverName

/-- scanCredentials from src/credentials.js. -/
def scanCredentials (cfg : ServerCfg) (serverName : String) : List Finding :=
  dedupAux [] (preDedupFindings cfg serverName)

/-! ## Structural config checks and per-server aggregation (src/index.js) -/

/-- The needsAuth keyword heuristic of the first CONFIG_ISSUES entry. -/
def needsAuthTest (cfg : ServerCfg) : Bool :=
  let pkg := String.intercalate " " cfg.args
  ["slack", "github", "gitlab", "stripe", "notion", "linear", "supabase",
   "datadog", "sentry"].any (fun w => strIncludesCI pkg w)

/-- CONFIG_ISSUES from src/data/vulndb.js, evaluated as in scanConfig:
skipIf first, then check. -/
def configIssueFindings (cfg : ServerCfg) (name : String) (pkgName : Option String) :
    List Finding :=
  (if needsAuthTest cfg && cfg.env.isEmpty then
    [⟨name, pkgName, "missing_auth", "medium", "No authentication configured",
      "Server: " ++ name,
      "This server typically requires API keys or tokens. Ensure auth is configured via environment variables.",
      none, none, none, none⟩]
  else [])
  ++
  (let args := String.intercalate " " cfg.args
   if strIncludesCI args "stdio"
       && (strIncludesCI args "0.0.0.0" || strIncludesCI args "--host"
           || strIncludesCI args "--port") then
    [⟨name, pkgName, "mixed_transport", "medium", "Mixed transport indicators",
      "Server: " ++ name,
      "Server config appears to mix stdio and network transport. Verify intended transport mode.",
      none, none, none, none⟩]
  else [])

/-- Rendering of an optional field inside a JS template literal:
an absent (undefined) field prints as "undefined". -/
def renderOptStr : Option String → String
  | some s => s
  | none => "undefined"

/-- The typosquat finding built in scanConfig (src/index.js 133-143). -/
def typosquatFindingFor (name pkgName : String) (c : Cand) : Finding :=
  ⟨name, some pkgName, "typosquat", c.severity,
   (if c.confidence == "confirmed" then "MALICIOUS: " ++ renderOptStr c.reason
    else "Potential typosquat of " ++ c.target),
   "Confidence: " ++ c.confidence ++ " | Distance: " ++ toString c.distance
     ++ " | Method: " ++ renderOptStr c.method,
   "Remove this server and replace with the legitimate package.",
   none, none, none, none⟩

/-- The spread `{ server: name, package: packageName, ...f }` of scanConfig. -/
def withServerPkg (sv : String) (p : Option String) (f : Finding) : Finding :=
  ⟨sv, p, f.type, f.severity, f.title, f.detail, f.advice, f.value,
   f.description, f.cvss, f.fixed⟩

/-- One server's finding list as assembled by scanConfig (src/index.js
120-215), local checks only (the async registry lookup is the external
enrichment boundary). -/
def serverFindings (name : String) (cfg : ServerCfg) : List Finding :=
  let pkgName := extractPackageName cfg
  (match pkgName with
   | some p =>
       match detectTyposquat p with
       | some c => [typosquatFindingFor name p c]
       | none => []
   | none => [])
  ++
  (match pkgName with
   | some p =>
       if !(checkPublisher p).trusted then
         [⟨name, some p, "unverified_publisher", "medium",
           "Unverified publisher for " ++ p,
           (checkPublisher p).reason,
           "Use packages from trusted scopes (@anthropic/, @modelcontextprotocol/) when possible.",
           none, none, none, none⟩]
       else []
   | none => [])
  ++
  (match pkgName with
   | some p => (formatCVEFindings (checkCVEs p) name).map (withServerPkg name (some p))
   | none => [])
  ++ (scanCredentials cfg name).map (withServerPkg name pkgName)
  ++ configIssueFindings cfg name pkgName

/-- Global aggregation: per-server lists concatenated in declaration
order (src/index.js allFindings). -/
def scanConfigFindings (servers : List (String × ServerCfg)) : List Finding :=
  servers.flatMap (fun p => serverFindings p.1 p.2)

/-! ## Severity histogram, verdict and report pass flag
(src/index.js 318-347, src/output.js generateJSONReport) -/

structure SevCounts where
  critical : Nat
  high : Nat
  medium : Nat
  low : Nat
deriving DecidableEq

/-- One step of the histogram loop: `if (bySeverity[f.severity] !==
undefined) bySeverity[f.severity]++` — a severity outside the four keys
is silently ignored. -/
def bumpSeverity (b : SevCounts) (s : String) : SevCounts :=
  if s == "critical" then ⟨b.critical + 1, b.high, b.medium, b.low⟩
  else if s == "high" then ⟨b.critical, b.high + 1, b.medium, b.low⟩
  else if s == "medium" then ⟨b.critical, b.high, b.medium + 1, b.low⟩
  else if s == "low" then ⟨b.critical, b.high, b.medium, b.low + 1⟩
  else b

/-- The severity histogram of src/index.js 319-322 (note: it has no
`info` bucket). -/
def computeBySeverity (findings : List Finding) : SevCounts :=
  findings.foldl (fun b f => bumpSeverity b f.severity) ⟨0, 0, 0, 0⟩

/-- The exit-code policy of src/index.js 344-347. -/
def exitCodeOf (b : SevCounts) : Nat :=
  if 0 < b.critical then 2 else if 0 < b.high then 1 else 0

/-- The `pass` flag of the JSON report (src/output.js 143). -/
def jsonReportPass (b : SevCounts) : Bool :=
  b.critical == 0 && b.high == 0

def sumSeverities (b : SevCounts) : Nat := b.critical + b.high + b.medium + b.low

/-! ## Lemmas about the candidate list and the sort -/

theorem mem_insertCand (a c : Cand) (l : List Cand) :
    a ∈ insertCand c l ↔ a = c ∨ a ∈ l := by
  induction l with
  | nil => simp [insertCand]
  | cons d ds ih =>
    rw [insertCand]
    by_cases h : d.distance < c.distance
    · simp only [if_pos h, List.mem_cons, ih]
      tauto
    · simp only [if_neg h, List.mem_cons]

theorem mem_sortCands (a : Cand) (l : List Cand) :
    a ∈ sortCands l ↔ a ∈ l := by
  induction l with
  | nil => simp [sortCands]
  | cons c cs ih =>
    rw [sortCands, mem_insertCand, ih, List.mem_cons]

theorem sortCands_eq_nil_iff (l : List Cand) : sortCands l = [] ↔ l = [] := by
  cases l with
  | nil => simp [sortCands]
  | cons c cs =>
    simp only [sortCands]
    constructor
    · intro h
      have : c ∈ insertCand c (sortCands cs) := (mem_insertCand c c _).mpr (Or.inl rfl)
      rw [h] at this
      exact absurd this (List.not_mem_nil c)
    · intro h
      exact absurd h (List.cons_ne_nil c cs)

/-- The head of the insertion sort is the first element of the input
achieving the minimal distance: it belongs to the input, no earlier input
element has a strictly smaller or equal distance, and no input element at
all has a smaller distance. -/
theorem sortCands_head : ∀ (l : List Cand), l ≠ [] →
    ∃ c pre post, (sortCands l).head? = some c ∧ l = pre ++ c :: post ∧
      (∀ d ∈ pre, c.distance < d.distance) ∧ (∀ d ∈ l, c.distance ≤ d.distance) := by
  intro l
  induction l with
  | nil => intro h; exact absurd rfl h
  | cons a cs ih =>
    intro _
    by_cases hcs : cs = []
    · subst hcs
      refine ⟨a, [], [], by simp [sortCands, insertCand], by simp, by simp, ?_⟩
      intro d hd
      simp at hd
      simp [hd]
    · obtain ⟨c, pre, post, hhead, hsplit, hpre, hmin⟩ := ih hcs
      have hserene : ∃ t, sortCands cs = c :: t := by
        cases hs : sortCands cs with
        | nil => rw [hs] at hhead; simp at hhead
        | cons x t =>
          rw [hs] at hhead
          simp at hhead
          exact ⟨t, by rw [hhead]⟩
      obtain ⟨t, hst⟩ := hserene
      have hsort : sortCands (a :: cs) = insertCand a (c :: t) := by
        rw [sortCands, hst]
      by_cases hlt : c.distance < a.distance
      · refine ⟨c, a :: pre, post, ?_, ?_, ?_, ?_⟩
        · rw [hsort, insertCand, if_pos hlt]
          simp
        · rw [List.cons_append, hsplit]
        · intro d hd
          rcases List.mem_cons.mp hd with h | h
          · rw [h]; exact hlt
          · exact hpre d h
        · intro d hd
          rcases List.mem_cons.mp hd with h | h
          · rw [h]; exact le_of_lt hlt
          · exact hmin d h
      · refine ⟨a, [], cs, ?_, by simp, by simp, ?_⟩
        · rw [hsort, insertCand, if_neg hlt]
          simp
        · intro d hd
          rcases List.mem_cons.mp hd with h | h
          · rw [h]
          · exact le_trans (Nat.le_of_not_lt hlt) (hmin d h)

/-- Membership in the candidate list, unfolded. -/
theorem mem_candidatesFor (name : String) (c : Cand) :
    c ∈ candidatesFor name ↔
      ∃ legit ∈ KNOWN_LEGITIMATE_PACKAGES,
        (0 < levenshtein name legit ∧ levenshtein name legit ≤ 3 ∧
          similarityOK (levenshtein name legit) (max name.length legit.length) = true) ∧
        c = ⟨true,
              if levenshtein name legit = 1 then "high"
              else if levenshtein name legit = 2 then "medium" else "low",
              legit, none,
              if levenshtein name legit = 1 then "critical" else "high",
              levenshtein name legit,
              some (max name.length legit.length - levenshtein name legit,
                    max name.length legit.length),
              some (if hasConfusableSubstitution name legit then "confusable substitution"
                    else if isTransposition name legit then "character transposition"
                    else if levenshtein name legit = 1 then "single character difference"
                    else "edit distance")⟩ := by
  unfold candidatesFor
  rw [List.mem_filterMap]
  constructor
  · rintro ⟨legit, hmem, hf⟩
    simp only at hf
    split at hf
    · rename_i hcond
      refine ⟨legit, hmem, ⟨hcond.1, hcond.2.1, hcond.2.2⟩, ?_⟩
      exact (Option.some_inj.mp hf).symm
    · exact absurd hf (by simp)
  · rintro ⟨legit, hmem, hcond, hc⟩
    refine ⟨legit, hmem, ?_⟩
    simp only
    rw [if_pos ⟨hcond.1, hcond.2.1, hcond.2.2⟩, hc]

theorem candidatesFor_eq_nil_iff (name : String) :
    candidatesFor name = [] ↔
      ∀ legit ∈ KNOWN_LEGITIMATE_PACKAGES,
        ¬(0 < levenshtein name legit ∧ levenshtein name legit ≤ 3 ∧
          similarityOK (levenshtein name legit) (max name.length legit.length) = true) := by
  constructor
  · intro h legit hmem hcond
    have : candidatesFor name ≠ [] := by
      intro hnil
      have hmemc : (⟨true,
          if levenshtein name legit = 1 then "high"
          else if levenshtein name legit = 2 then "medium" else "low",
          legit, none,
          if levenshtein name legit = 1 then "critical" else "high",
          levenshtein name legit,
          some (max name.length legit.length - levenshtein name legit,
                max name.length legit.length),
          some (if hasConfusableSubstitution name legit then "confusable substitution"
                else if isTransposition name legit then "character transposition"
                else if levenshtein name legit = 1 then "single character difference"
                else "edit distance")⟩ : Cand) ∈ candidatesFor name := by
        rw [mem_candidatesFor]
        exact ⟨legit, hmem, hcond, rfl⟩
      rw [hnil] at hmemc
      exact absurd hmemc (List.not_mem_nil _)
    exact absurd h this
  · intro h
    cases hc : candidatesFor name with
    | nil => rfl
    | cons c cs =>
      have hmemc : c ∈ candidatesFor name := by rw [hc]; exact List.mem_cons_self c cs
      rw [mem_candidatesFor] at hmemc
      obtain ⟨legit, hmem, hcond, _⟩ := hmemc
      exact absurd hcond (h legit hmem)

/-- A string with positive edit distance to another has a positive length
maximum. -/
theorem maxLen_pos_of_dist_pos (name legit : String)
    (h : 0 < levenshtein name legit) : 0 < max name.length legit.length := by
  by_contra hmax
  push_neg at hmax
  interval_cases hm : max name.length legit.length
  have h1 : name.length = 0 := by omega
  have h2 : legit.length = 0 := by omega
  have hn : name.toList = [] := List.length_eq_zero.mp h1
  have hl : legit.toList = [] := List.length_eq_zero.mp h2
  rw [levenshtein_eq_editDist, hn, hl] at h
  simp at h

/-- On a name that is neither known-malicious nor known-legitimate,
detectTyposquat is the head of the sorted candidate list. -/
theorem detectTyposquat_fuzzy (name : String)
    (hmal : ∀ m ∈ KNOWN_MALICIOUS, m.name ≠ name)
    (hleg : name ∉ KNOWN_LEGITIMATE_PACKAGES) :
    detectTyposquat name = (sortCands (candidatesFor name)).head? := by
  unfold detectTyposquat
  have hfind : KNOWN_MALICIOUS.find? (fun m => m.name == name) = none := by
    rw [List.find?_eq_none]
    intro m hm
    simp [hmal m hm]
  rw [hfind]
  have hcont : KNOWN_LEGITIMATE_PACKAGES.contains name = false := by
    cases h : KNOWN_LEGITIMATE_PACKAGES.contains name
    · rfl
    · exact absurd (List.mem_of_elem_eq_true h) hleg
  rw [hcont]
  simp

/-- String length agrees with the character-list length. -/
theorem toList_length (s : String) : s.toList.length = s.length := rfl

theorem countDiffs_self : ∀ (u : List Char), countDiffs u u = 0 := by
  intro u
  induction u with
  | nil => rfl
  | cons x u ih => simp [countDiffs, ih]

/-- At equal length, an edit distance of at most one means at most one
positional difference. -/
theorem countDiffs_le_one : ∀ (u v : List Char), u.length = v.length →
    editDist u v ≤ 1 → countDiffs u v ≤ 1 := by
  intro u
  induction u with
  | nil =>
    intro v hlen _
    cases v with
    | nil => simp [countDiffs]
    | cons y v' => simp at hlen
  | cons x u' ih =>
    intro v hlen hdist
    cases v with
    | nil => simp at hlen
    | cons y v' =>
      simp only [List.length_cons] at hlen
      rw [editDist_cons_cons] at hdist
      by_cases hxy : x = y
      · rw [if_pos hxy] at hdist
        simp only [countDiffs, if_pos hxy]
        have := ih v' (by omega) hdist
        omega
      · rw [if_neg hxy] at hdist
        have hmin : min (editDist u' (y :: v'))
            (min (editDist (x :: u') v') (editDist u' v')) = 0 := by omega
        rw [Nat.min_eq_zero_iff, Nat.min_eq_zero_iff] at hmin
        have he3 : editDist u' v' = 0 := by
          rcases hmin with h1 | h2 | h3
          · have := (editDist_eq_zero_iff u' (y :: v')).mp h1
            have hlen1 := congrArg List.length this
            simp only [List.length_cons] at hlen1
            omega
          · have := (editDist_eq_zero_iff (x :: u') v').mp h2
            have hlen2 := congrArg List.length this
            simp only [List.length_cons] at hlen2
            omega
          · exact h3
        have heq := (editDist_eq_zero_iff u' v').mp he3
        subst heq
        simp [countDiffs, if_neg hxy, countDiffs_self]

/-- Every pair at Levenshtein distance one passes the source's
isTransposition test: the lengths differ by at most one, and at equal
length the single edit is a substitution, so there is exactly one
positional difference. -/
theorem isTransposition_of_dist_one (a b : String)
    (h : levenshtein a b = 1) : isTransposition a b = true := by
  have hed : editDist a.toList b.toList = 1 := by
    rw [← levenshtein_eq_editDist]; exact h
  have hlb : b.toList.length ≤ a.toList.length + editDist a.toList b.toList :=
    length_sub_le_editDist a.toList b.toList
  have hlb' : a.toList.length ≤ b.toList.length + editDist a.toList b.toList :=
    length_sub_le_editDist' a.toList b.toList
  rw [toList_length, toList_length, hed] at hlb hlb'
  unfold isTransposition
  have habs : ¬ ((a.length : Int) - (b.length : Int)).natAbs > 1 := by
    omega
  rw [if_neg habs]
  by_cases hlen : a.length = b.length
  · rw [if_pos hlen]
    have hcd : countDiffs a.toList b.toList ≤ 1 := by
      apply countDiffs_le_one
      · rw [toList_length, toList_length]; exact hlen
      · omega
    rw [decide_eq_true_iff]
    omega
  · rw [if_neg hlen]

/-- C2: for a package name that is neither in the known-malicious table nor
a known-legitimate entry, detectTyposquat returns a candidate exactly when
some legitimate name is at distance 0 < d ≤ 3 with similarity
1 − d/max(len,len) > 0.75, and every returned candidate is classified
confidence high/medium/low for distance 1/2/3 and severity critical for
distance 1, high otherwise. -/
theorem C2_admissibility (name : String)
    (hmal : ∀ m ∈ KNOWN_MALICIOUS, m.name ≠ name)
    (hleg : name ∉ KNOWN_LEGITIMATE_PACKAGES) :
    ((detectTyposquat name).isSome ↔
      ∃ legit ∈ KNOWN_LEGITIMATE_PACKAGES,
        0 < levenshtein name legit ∧ levenshtein name legit ≤ 3 ∧
        (0.75 : ℚ) < 1 - (levenshtein name legit : ℚ)
            / ((max name.length legit.length : Nat) : ℚ)) ∧
    (∀ c, detectTyposquat name = some c →
      c.confidence = (if c.distance = 1 then "high"
        else if c.distance = 2 then "medium" else "low") ∧
      c.severity = (if c.distance = 1 then "critical" else "high")) := by
  have hdt := detectTyposquat_fuzzy name hmal hleg
  constructor
  · rw [hdt]
    rw [List.head?_isSome]
    rw [ne_eq, sortCands_eq_nil_iff]
    constructor
    · intro hne
      rcases List.exists_mem_of_ne_nil _ hne with ⟨c, hc⟩
      rw [mem_candidatesFor] at hc
      obtain ⟨legit, hmem, ⟨h1, h2, h3⟩, _⟩ := hc
      refine ⟨legit, hmem, h1, h2, ?_⟩
      exact (similarityOK_iff _ _ (maxLen_pos_of_dist_pos name legit h1)).mp h3
    · rintro ⟨legit, hmem, h1, h2, h3⟩
      intro hnil
      rw [candidatesFor_eq_nil_iff] at hnil
      exact hnil legit hmem
        ⟨h1, h2, (similarityOK_iff _ _ (maxLen_pos_of_dist_pos name legit h1)).mpr h3⟩
  · intro c hc
    rw [hdt] at hc
    have hmem : c ∈ sortCands (candidatesFor name) :=
      List.mem_of_mem_head? (by rw [hc]; rfl)
    rw [mem_sortCands, mem_candidatesFor] at hmem
    obtain ⟨legit, _, _, hceq⟩ := hmem
    subst hceq
    exact ⟨rfl, rfl⟩

set_option maxRecDepth 1000000 in
/-- C2 witness: a concrete name accepted by the admissibility test. -/
theorem C2_admissibility_witness :
    "mcp-server-redsi" ∉ KNOWN_LEGITIMATE_PACKAGES ∧
    (detectTyposquat "mcp-server-redsi").isSome := by
  refine ⟨by decide, ?_⟩
  apply (C2_admissibility "mcp-server-redsi" (by decide) (by decide)).1.mpr
  refine ⟨"mcp-server-redis", by decide, ?_, ?_, ?_⟩
  · show 0 < levenshtein "mcp-server-redsi" "mcp-server-redis"
    decide
  · show levenshtein "mcp-server-redsi" "mcp-server-redis" ≤ 3
    decide
  · have hd : levenshtein "mcp-server-redsi" "mcp-server-redis" = 2 := by decide
    have hm : max ("mcp-server-redsi".length) ("mcp-server-redis".length) = 16 := by decide
    rw [hd, hm]
    norm_num

/-- C6: on the fuzzy path, detectTyposquat returns the admissible candidate
with the smallest distance; on ties the candidate from the earliest
position of the legitimate-name table wins (every candidate listed before
the returned one has strictly larger distance). -/
theorem C6_ranking (name : String)
    (hmal : ∀ m ∈ KNOWN_MALICIOUS, m.name ≠ name)
    (hleg : name ∉ KNOWN_LEGITIMATE_PACKAGES)
    (hne : candidatesFor name ≠ []) :
    ∃ c pre post, detectTyposquat name = some c ∧
      candidatesFor name = pre ++ c :: post ∧
      (∀ d ∈ pre, c.distance < d.distance) ∧
      (∀ d ∈ candidatesFor name, c.distance ≤ d.distance) := by
  have hdt := detectTyposquat_fuzzy name hmal hleg
  obtain ⟨c, pre, post, hhead, hsplit, hpre, hmin⟩ :=
    sortCands_head (candidatesFor name) hne
  exact ⟨c, pre, post, by rw [hdt]; exact hhead, hsplit, hpre, hmin⟩

set_option maxRecDepth 1000000 in
/-- C6 witness. -/
theorem C6_ranking_witness :
    candidatesFor "mcp-server-redsi" ≠ [] ∧
    ∃ c pre post, detectTyposquat "mcp-server-redsi" = some c ∧
      candidatesFor "mcp-server-redsi" = pre ++ c :: post ∧
      (∀ d ∈ pre, c.distance < d.distance) ∧
      (∀ d ∈ candidatesFor "mcp-server-redsi", c.distance ≤ d.distance) := by
  refine ⟨by decide, ?_⟩
  exact C6_ranking "mcp-server-redsi" (by decide) (by decide) (by decide)

/-- Modelled from the spec: a transposition in its ordinary sense — two
adjacent characters swapped (the testable-properties section exempts names
with "no confusable/transposition pattern" from the transposition label).
Used only to state the counterexample for C7. -/
def adjSwapAux : List Char → List Char → Bool
  | x :: y :: t, x' :: y' :: t' =>
      (x == y' && y == x' && !(x == y) && t == t') ||
      (x == x' && adjSwapAux (y :: t) (y' :: t'))
  | _, _ => false

def isAdjacentSwap (a b : String) : Bool := adjSwapAux a.toList b.toList

set_option maxRecDepth 1000000 in
/-- C7 counterexample: "mcp-server-redis1" is at distance 1 from exactly
one legitimate name, with no confusable substitution and no adjacent-swap
transposition, yet the returned method label is "character transposition",
not "single character difference" — the source's isTransposition accepts
every pair whose lengths differ by at most one, so the
single-character-difference label is always overridden at distance 1. -/
theorem C7_method_counterexample :
    (∀ m ∈ KNOWN_MALICIOUS, m.name ≠ "mcp-server-redis1") ∧
    "mcp-server-redis1" ∉ KNOWN_LEGITIMATE_PACKAGES ∧
    levenshtein "mcp-server-redis1" "mcp-server-redis" = 1 ∧
    (∀ legit ∈ KNOWN_LEGITIMATE_PACKAGES, legit ≠ "mcp-server-redis" →
      levenshtein "mcp-server-redis1" legit ≠ 1) ∧
    hasConfusableSubstitution "mcp-server-redis1" "mcp-server-redis" = false ∧
    isAdjacentSwap "mcp-server-redis1" "mcp-server-redis" = false ∧
    (detectTyposquat "mcp-server-redis1").map Cand.confidence = some "high" ∧
    (detectTyposquat "mcp-server-redis1").map Cand.severity = some "critical" ∧
    (detectTyposquat "mcp-server-redis1").map Cand.method
      = some (some "character transposition") ∧
    (detectTyposquat "mcp-server-redis1").map Cand.method
      ≠ some (some "single character difference") := by
  have h : detectTyposquat "mcp-server-redis1"
      = some ⟨true, "high", "mcp-server-redis", none, "critical", 1,
              some (16, 17), some "character transposition"⟩ := by decide
  refine ⟨by decide, by decide, by decide, by decide, by decide, by decide,
          ?_, ?_, ?_, ?_⟩ <;> rw [h] <;> decide

/-- C7 amended: for an unknown package name at distance 1 from exactly one
known-legitimate name, where no confusable substitution applies, the
returned candidate has confidence high, severity critical, and method
"character transposition" — the source's transposition check subsumes
every distance-1 pair (lengths within one of each other, or one
substitution at equal length), so the "single character difference" label
is always overridden. -/
theorem C7_method_amended (name l0 : String)
    (hmal : ∀ m ∈ KNOWN_MALICIOUS, m.name ≠ name)
    (hleg : name ∉ KNOWN_LEGITIMATE_PACKAGES)
    (hmem : l0 ∈ KNOWN_LEGITIMATE_PACKAGES)
    (hd1 : levenshtein name l0 = 1)
    (hadm : similarityOK 1 (max name.length l0.length) = true)
    (huniq : ∀ legit ∈ KNOWN_LEGITIMATE_PACKAGES, legit ≠ l0 →
      levenshtein name legit ≠ 1)
    (hconf : hasConfusableSubstitution name l0 = false) :
    ∃ c, detectTyposquat name = some c ∧ c.confidence = "high" ∧
      c.severity = "critical" ∧ c.distance = 1 ∧
      c.method = some "character transposition" := by
  have hc0 : (⟨true,
      if levenshtein name l0 = 1 then "high"
      else if levenshtein name l0 = 2 then "medium" else "low",
      l0, none,
      if levenshtein name l0 = 1 then "critical" else "high",
      levenshtein name l0,
      some (max name.length l0.length - levenshtein name l0,
            max name.length l0.length),
      some (if hasConfusableSubstitution name l0 then "confusable substitution"
            else if isTransposition name l0 then "character transposition"
            else if levenshtein name l0 = 1 then "single character difference"
            else "edit distance")⟩ : Cand) ∈ candidatesFor name := by
    rw [mem_candidatesFor]
    exact ⟨l0, hmem, ⟨by omega, by omega, by rw [hd1]; exact hadm⟩, rfl⟩
  have hne : candidatesFor name ≠ [] := List.ne_nil_of_mem hc0
  obtain ⟨c, pre, post, hhead, hsplit, hpre, hmin⟩ :=
    sortCands_head (candidatesFor name) hne
  have hdt := detectTyposquat_fuzzy name hmal hleg
  have hcmem : c ∈ candidatesFor name := by
    rw [hsplit]
    exact List.mem_append_right _ (List.mem_cons_self c post)
  rw [mem_candidatesFor] at hcmem
  obtain ⟨legit, hlmem, ⟨hp1, hp2, hp3⟩, hceq⟩ := hcmem
  have hle : c.distance ≤ 1 := by
    have := hmin _ hc0
    simpa [hd1] using this
  have hcdist : c.distance = levenshtein name legit := by rw [hceq]
  have h1 : levenshtein name legit = 1 := by omega
  have hleq : legit = l0 := by
    by_contra hne'
    exact (huniq legit hlmem hne') h1
  subst hleq
  have htr : isTransposition name legit = true :=
    isTransposition_of_dist_one name legit h1
  refine ⟨c, by rw [hdt]; exact hhead, ?_, ?_, ?_, ?_⟩
  · rw [hceq]; simp [h1]
  · rw [hceq]; simp [h1]
  · rw [hceq]; exact h1
  · rw [hceq]; simp [hconf, htr]

set_option maxRecDepth 1000000 in
/-- C7 amended witness. -/
theorem C7_method_amended_witness :
    ∃ c, detectTyposquat "mcp-server-redis1" = some c ∧ c.confidence = "high" ∧
      c.severity = "critical" ∧ c.distance = 1 ∧
      c.method = some "character transposition" :=
  C7_method_amended "mcp-server-redis1" "mcp-server-redis"
    (by decide) (by decide) (by decide) (by decide) (by decide)
    (by decide) (by decide)

/-- C10: for a name found in the known-malicious table, detectTyposquat
returns a confirmed candidate whose method and similarity fields are
absent (none) — only target, reason, severity and the computed distance
are set — and the typosquat finding scanConfig builds from it renders the
absent method as the JS undefined value: its detail string ends in
"Method: undefined". -/
theorem C10_confirmed_shape (name : String) (m : MalEntry)
    (hm : KNOWN_MALICIOUS.find? (fun e => e.name == name) = some m) :
    detectTyposquat name
      = some ⟨true, "confirmed", m.impersonates, some m.reason, m.severity,
              levenshtein name m.impersonates, none, none⟩ ∧
    ∀ sv, (typosquatFindingFor sv name
        ⟨true, "confirmed", m.impersonates, some m.reason, m.severity,
         levenshtein name m.impersonates, none, none⟩).detail
      = "Confidence: confirmed | Distance: "
          ++ toString (levenshtein name m.impersonates) ++ " | Method: undefined" := by
  constructor
  · unfold detectTyposquat
    rw [hm]
  · intro sv
    show "Confidence: " ++ "confirmed" ++ " | Distance: "
        ++ toString (levenshtein name m.impersonates) ++ " | Method: "
        ++ renderOptStr none = _
    rw [show renderOptStr none = "undefined" from rfl]
    rw [show "Confidence: " ++ "confirmed" ++ " | Distance: "
          = "Confidence: confirmed | Distance: " from rfl]
    rw [String.append_assoc]
    rw [show " | Method: " ++ "undefined" = " | Method: undefined" from rfl]

set_option maxRecDepth 1000000 in
/-- C10 witness: the canonical confirmed-malicious entry. -/
theorem C10_confirmed_shape_witness :
    detectTyposquat "mcp-servr-github"
      = some ⟨true, "confirmed", "mcp-server-github",
              some "Typosquat — contains credential-harvesting payload",
              "critical", 1, none, none⟩ ∧
    (typosquatFindingFor "srv" "mcp-servr-github"
        ⟨true, "confirmed", "mcp-server-github",
         some "Typosquat — contains credential-harvesting payload",
         "critical", 1, none, none⟩).detail
      = "Confidence: confirmed | Distance: 1 | Method: undefined" := by
  have h := C10_confirmed_shape "mcp-servr-github"
    ⟨"mcp-servr-github", "mcp-server-github",
     "Typosquat — contains credential-harvesting payload", "critical"⟩
    (by decide)
  have hd : levenshtein "mcp-servr-github" "mcp-server-github" = 1 := by decide
  constructor
  · rw [h.1, hd]
  · have h2 := h.2 "srv"
    rw [hd] at h2
    exact h2

/-- C8: the source's levenshtein is a true metric — identity, symmetry,
non-negativity and the triangle inequality — and it equals the
unrestricted full dynamic-programming edit distance with unit-cost
insert, delete and substitute (`editDist`). -/
theorem C8_levenshtein_metric :
    (∀ a : String, levenshtein a a = 0) ∧
    (∀ a b : String, levenshtein a b = levenshtein b a) ∧
    (∀ a b : String, 0 ≤ levenshtein a b) ∧
    (∀ a b c : String, levenshtein a c ≤ levenshtein a b + levenshtein b c) ∧
    (∀ a b : String, levenshtein a b = editDist a.toList b.toList) := by
  refine ⟨?_, ?_, ?_, ?_, levenshtein_eq_editDist⟩
  · intro a
    rw [levenshtein_eq_editDist]
    exact editDist_self _
  · intro a b
    rw [levenshtein_eq_editDist, levenshtein_eq_editDist]
    exact editDist_comm _ _
  · intro a b
    exact Nat.zero_le _
  · intro a b c
    rw [levenshtein_eq_editDist, levenshtein_eq_editDist, levenshtein_eq_editDist]
    exact editDist_triangle _ _ _

/-! ## Histogram lemmas -/

/-- Findings whose severity is neither critical nor high never change the
critical or high buckets. -/
theorem foldl_bump_crit_high : ∀ (l : List Finding) (b : SevCounts),
    (∀ f ∈ l, f.severity ≠ "critical" ∧ f.severity ≠ "high") →
    (l.foldl (fun b f => bumpSeverity b f.severity) b).critical = b.critical ∧
    (l.foldl (fun b f => bumpSeverity b f.severity) b).high = b.high := by
  intro l
  induction l with
  | nil => intro b _; exact ⟨rfl, rfl⟩
  | cons f fs ih =>
    intro b h
    rw [List.foldl_cons]
    have hf := h f (List.mem_cons_self f fs)
    have hb : (bumpSeverity b f.severity).critical = b.critical ∧
        (bumpSeverity b f.severity).high = b.high := by
      unfold bumpSeverity
      rw [if_neg (by simp [hf.1]), if_neg (by simp [hf.2])]
      split_ifs <;> simp
    have := ih (bumpSeverity b f.severity) (fun g hg => h g (List.mem_cons_of_mem f hg))
    rw [this.1, this.2, hb.1, hb.2]
    exact ⟨rfl, rfl⟩

/-- C1: the verdict is a pure function of the severity histogram —
critical>0 gives exit code 2 (fail), else high>0 gives 1 (warn), else 0
(pass); the JSON report's pass flag is true exactly when critical and high
are both 0; and findings of severity medium, low or info never change the
verdict or the pass flag. -/
theorem C1_verdict_policy :
    (∀ b : SevCounts,
      (exitCodeOf b = 2 ↔ 0 < b.critical) ∧
      (exitCodeOf b = 1 ↔ (b.critical = 0 ∧ 0 < b.high)) ∧
      (exitCodeOf b = 0 ↔ (b.critical = 0 ∧ b.high = 0)) ∧
      (jsonReportPass b = true ↔ (b.critical = 0 ∧ b.high = 0))) ∧
    (∀ (l extra : List Finding),
      (∀ f ∈ extra, f.severity = "medium" ∨ f.severity = "low" ∨ f.severity = "info") →
      exitCodeOf (computeBySeverity (l ++ extra)) = exitCodeOf (computeBySeverity l) ∧
      jsonReportPass (computeBySeverity (l ++ extra))
        = jsonReportPass (computeBySeverity l)) := by
  constructor
  · intro b
    refine ⟨?_, ?_, ?_, ?_⟩
    · unfold exitCodeOf
      split_ifs <;> constructor <;> intro hx <;> first | exact hx.elim | omega
    · unfold exitCodeOf
      split_ifs <;> constructor <;> intro hx <;> first | exact hx.elim | omega
    · unfold exitCodeOf
      split_ifs <;> constructor <;> intro hx <;> first | exact hx.elim | omega
    · unfold jsonReportPass
      rw [Bool.and_eq_true, beq_iff_eq, beq_iff_eq]
  · intro l extra h
    have hmap : ∀ f ∈ extra, f.severity ≠ "critical" ∧ f.severity ≠ "high" := by
      intro f hf
      rcases h f hf with h1 | h1 | h1 <;> rw [h1] <;> exact ⟨by decide, by decide⟩
    unfold computeBySeverity
    rw [List.foldl_append]
    have := foldl_bump_crit_high extra
      (l.foldl (fun b f => bumpSeverity b f.severity) ⟨0, 0, 0, 0⟩) hmap
    constructor
    · unfold exitCodeOf
      rw [this.1, this.2]
    · unfold jsonReportPass
      rw [this.1, this.2]

/-- C1 witness: adding an info finding leaves the exit code unchanged. -/
theorem C1_verdict_policy_witness :
    exitCodeOf (computeBySeverity
      ([] ++ [⟨"s", none, "registry_registry_unavailable", "info",
               "npm registry check unavailable", "d", "a",
               none, none, none, none⟩]))
      = exitCodeOf (computeBySeverity []) :=
  (C1_verdict_policy.2 []
    [⟨"s", none, "registry_registry_unavailable", "info",
      "npm registry check unavailable", "d", "a", none, none, none, none⟩]
    (by decide)).1

/-- The histogram fold, bucket by bucket. -/
theorem computeBySeverity_aux : ∀ (l : List Finding) (b : SevCounts),
    l.foldl (fun b f => bumpSeverity b f.severity) b =
      ⟨b.critical + (l.filter (fun f => f.severity == "critical")).length,
       b.high + (l.filter (fun f => f.severity == "high")).length,
       b.medium + (l.filter (fun f => f.severity == "medium")).length,
       b.low + (l.filter (fun f => f.severity == "low")).length⟩ := by
  intro l
  induction l with
  | nil => intro b; simp
  | cons f fs ih =>
    intro b
    rw [List.foldl_cons, ih (bumpSeverity b f.severity)]
    simp only [List.filter_cons]
    unfold bumpSeverity
    by_cases h1 : f.severity = "critical"
    · simp [h1]
      omega
    · by_cases h2 : f.severity = "high"
      · simp [h1, h2]
        omega
      · by_cases h3 : f.severity = "medium"
        · simp [h1, h2, h3]
          omega
        · by_cases h4 : f.severity = "low"
          · simp [h1, h2, h3, h4]
            omega
          · simp [h1, h2, h3, h4]

/-- Length of the filter by the union of the four counted severities. -/
theorem filter_four_len : ∀ (l : List Finding),
    (l.filter (fun f => f.severity == "critical" || f.severity == "high"
        || f.severity == "medium" || f.severity == "low")).length =
      (l.filter (fun f => f.severity == "critical")).length
      + (l.filter (fun f => f.severity == "high")).length
      + (l.filter (fun f => f.severity == "medium")).length
      + (l.filter (fun f => f.severity == "low")).length := by
  intro l
  induction l with
  | nil => simp
  | cons f fs ih =>
    simp only [List.filter_cons]
    by_cases h1 : f.severity = "critical"
    · simp [h1, ih]
      omega
    · by_cases h2 : f.severity = "high"
      · simp [h1, h2, ih]
        omega
      · by_cases h3 : f.severity = "medium"
        · simp [h1, h2, h3, ih]
          omega
        · by_cases h4 : f.severity = "low"
          · simp [h1, h2, h3, h4, ih]
            omega
          · simp [h1, h2, h3, h4, ih]

/-- C3 counterexample: a finding list containing one finding of severity
info (which the registry signal path produces) has a histogram summing to
0, not to the total finding count 1; and a finding with a severity outside
the enum is silently ignored by the histogram, not rejected. -/
theorem C3_histogram_counterexample :
    (sumSeverities (computeBySeverity
        [⟨"s", none, "registry_registry_unavailable", "info",
          "npm registry check unavailable", "d", "a", none, none, none, none⟩])
      ≠ ([⟨"s", none, "registry_registry_unavailable", "info",
          "npm registry check unavailable", "d", "a",
          none, none, none, none⟩] : List Finding).length) ∧
    computeBySeverity
        [⟨"s", none, "x", "not-a-severity", "t", "d", "a", none, none, none, none⟩]
      = ⟨0, 0, 0, 0⟩ := by
  constructor
  · decide
  · decide

/-- C3 amended: each histogram bucket equals the count of findings of that
severity, and the histogram sums to the number of findings whose severity
is one of the four counted keys (critical, high, medium, low) — findings
of severity info, and any severity outside those keys, are silently
excluded from the histogram, so it need not sum to the total finding
count. -/
theorem C3_histogram_amended (l : List Finding) :
    (computeBySeverity l).critical
        = (l.filter (fun f => f.severity == "critical")).length ∧
    (computeBySeverity l).high
        = (l.filter (fun f => f.severity == "high")).length ∧
    (computeBySeverity l).medium
        = (l.filter (fun f => f.severity == "medium")).length ∧
    (computeBySeverity l).low
        = (l.filter (fun f => f.severity == "low")).length ∧
    sumSeverities (computeBySeverity l)
      = (l.filter (fun f => f.severity == "critical" || f.severity == "high"
          || f.severity == "medium" || f.severity == "low")).length := by
  have h := computeBySeverity_aux l ⟨0, 0, 0, 0⟩
  unfold computeBySeverity
  rw [h]
  refine ⟨by simp, by simp, by simp, by simp, ?_⟩
  unfold sumSeverities
  rw [filter_four_len]
  simp

/-- The seen-set filter keeps exactly the first finding for each
(title, detail) key. -/
theorem dedupAux_filter (k : String) : ∀ (l : List Finding) (seen : List String),
    (dedupAux seen l).filter (fun f => dedupKey f == k)
      = if seen.contains k then []
        else (l.filter (fun f => dedupKey f == k)).take 1 := by
  intro l
  induction l with
  | nil =>
    intro seen
    rw [dedupAux]
    simp only [List.filter_nil, List.take_nil]
    split <;> rfl
  | cons f fs ih =>
    intro seen
    rw [dedupAux]
    by_cases hseen : seen.contains (dedupKey f) = true
    · rw [if_pos hseen, ih seen]
      by_cases hk : dedupKey f = k
      · rw [← hk]
        rw [if_pos hseen, if_pos hseen]
      · have hne : (dedupKey f == k) = false := by
          rw [beq_eq_false_iff_ne]
          exact hk
        rw [List.filter_cons, hne]
        simp only [Bool.false_eq_true, if_false]
    · rw [if_neg hseen]
      rw [List.filter_cons, List.filter_cons]
      by_cases hk : dedupKey f = k
      · have hbeq : (dedupKey f == k) = true := by rw [beq_iff_eq]; exact hk
        rw [hbeq]
        simp only [if_true]
        rw [ih (dedupKey f :: seen)]
        have hc : (dedupKey f :: seen).contains k = true := by
          subst hk
          simp [List.contains_cons]
        rw [if_pos hc]
        have hks : seen.contains k = false := by
          subst hk
          cases h : seen.contains (dedupKey f)
          · rfl
          · exact absurd h hseen
        rw [if_neg (by rw [hks]; exact Bool.false_ne_true)]
        rfl
      · have hne : (dedupKey f == k) = false := by
          rw [beq_eq_false_iff_ne]
          exact hk
        rw [hne]
        simp only [Bool.false_eq_true, if_false]
        rw [ih (dedupKey f :: seen)]
        have hc : (dedupKey f :: seen).contains k = seen.contains k := by
          rw [List.contains_cons]
          have : (k == dedupKey f) = false := by
            rw [beq_eq_false_iff_ne]
            exact fun h => hk h.symm
          rw [this]
          simp
        rw [hc]

set_option maxRecDepth 1000000 in
/-- C4: deduplication is intra-server — the credential scanner keeps only
the first finding for each (title, detail) pair, so two identical findings
from independent rule paths for one server collapse to one — while global
aggregation concatenates per-server lists without deduplication, so the
same (title, detail) pair from two different servers appears twice.  The
concrete parts: one server whose single argument matches both the
postgres and the mysql credential rules (two findings with an identical
pair before dedup, one after), and two servers with the same malicious
package, whose identical typosquat findings both stay in the global
list. -/
theorem C4_dedup :
    (∀ (cfg : ServerCfg) (serverName k : String),
      (scanCredentials cfg serverName).filter (fun f => dedupKey f == k)
        = ((preDedupFindings cfg serverName).filter
            (fun f => dedupKey f == k)).take 1) ∧
    ((preDedupFindings ⟨"npx", ["postgres://u:p@h mysql://u:p@h"], [], none⟩
        "srv").filter (fun f => dedupKey f ==
          "Database credentials detected in config:Found at: srv.args[0]")).length
      = 2 ∧
    ((scanCredentials ⟨"npx", ["postgres://u:p@h mysql://u:p@h"], [], none⟩
        "srv").filter (fun f => dedupKey f ==
          "Database credentials detected in config:Found at: srv.args[0]")).length
      = 1 ∧
    ((scanConfigFindings [("a", ⟨"mcp-servr-github", [], [], none⟩),
                          ("b", ⟨"mcp-servr-github", [], [], none⟩)]).filter
        (fun f => dedupKey f ==
          "MALICIOUS: Typosquat — contains credential-harvesting payload:Confidence: confirmed | Distance: 1 | Method: undefined")).length
      = 2 := by
  refine ⟨?_, by decide, by decide, by decide⟩
  intro cfg serverName k
  unfold scanCredentials
  rw [dedupAux_filter k (preDedupFindings cfg serverName) []]
  rfl

/-- C5: the credential mask.  The documented example works: the OpenAI-key
value masks to exactly its first three characters plus "****".  But the
mask is a global regex replace over the whole value, not a transform of
the matched substring, and on the value "secret:abcd" — which the
Plaintext-secret rule matches — the mask regex finds nothing to replace
(no run of three non-separator characters followed by four more), so the
finding reports the secret completely unmasked: the reported value equals
the full original. -/
theorem C5_masking_bug :
    maskValue "sk-abcdefghijklmnopqrst1234" = "sk-****" ∧
    scanValue "sk-abcdefghijklmnopqrst1234" "server.args[0]"
      = [⟨"", none, "hardcoded_credential", "critical",
          "OpenAI API key detected in config", "Found at: server.args[0]",
          "API keys should never be in config files. Use environment variables.",
          some "sk-****", none, none, none⟩] ∧
    maskValue "secret:abcd" = "secret:abcd" ∧
    scanValue "secret:abcd" "server.env.DB_SECRET"
      = [⟨"", none, "hardcoded_credential", "high",
          "Plaintext secret detected in config", "Found at: server.env.DB_SECRET",
          "Never store secrets in configuration files.",
          some "secret:abcd", none, none, none⟩] := by
  refine ⟨by decide, by decide, by decide, by decide⟩

/-- Modelled from the spec: "recognized package-runner commands surface
the first non-flag argument as the identity" — the first argument not
starting with a dash.  Used only to state the counterexample for C9. -/
def specFirstNonFlagArg (args : List String) : Option String :=
  args.find? (fun a => !strStartsWith a "-")

/-- C9 counterexample: for `npx` with arguments ["foo/bar", "mcp-thing"],
the first non-flag argument is "foo/bar", but the code also skips non-flag
arguments containing a slash (unless they start with "@") and returns
"mcp-thing". -/
theorem C9_extract_counterexample :
    extractPackageName ⟨"npx", ["foo/bar", "mcp-thing"], [], none⟩
      = some "mcp-thing" ∧
    specFirstNonFlagArg ["foo/bar", "mcp-thing"] = some "foo/bar" ∧
    extractPackageName ⟨"npx", ["foo/bar", "mcp-thing"], [], none⟩
      ≠ specFirstNonFlagArg ["foo/bar", "mcp-thing"] := by
  refine ⟨by decide, by decide, by decide⟩

/-- The amended identity policy: for a package-runner command (npx or
uvx) the identity is the first argument that is not a flag AND looks like
a package name (starts with "@" or contains no "/"); with no such
argument the identity is null.  Interpreter commands yield null; a
command that itself looks like a package name is the identity; anything
else yields null. -/
def extractPackageNameAmended (cfg : ServerCfg) : Option String :=
  if cfg.command == "npx" || cfg.command == "uvx" then
    match cfg.args.find? (fun a =>
        !strStartsWith a "-" && (strStartsWith a "@" || !strContainsChar a '/')) with
    | some a => some a
    | none => none
  else if cfg.command == "node" || cfg.command == "python"
      || cfg.command == "python3" then none
  else if strStartsWith cfg.command "mcp-" || strStartsWith cfg.command "@" then
    some cfg.command
  else none

/-- C9 amended: the source's extraction equals the amended policy on every
server config. -/
theorem C9_extract_amended (cfg : ServerCfg) :
    extractPackageName cfg = extractPackageNameAmended cfg := by
  unfold extractPackageName extractPackageNameAmended
  by_cases h : (cfg.command == "npx" || cfg.command == "uvx") = true
  · rw [if_pos h, if_pos h]
    cases hf : cfg.args.find? (fun a =>
        !strStartsWith a "-" && (strStartsWith a "@" || !strContainsChar a '/')) with
    | some a => rfl
    | none =>
      simp only [Bool.or_eq_true, beq_iff_eq] at h
      rcases h with h | h <;> rw [h] <;> rfl
  · rw [if_neg h, if_neg h]

end MCPShield
